import Mathlib

/-!
# grive2: the reconciliation engine of `libgrive/src/base/State.cc` and the
callbacks of `libgrive/src/http/CurlAgent.cc`

A shallow embedding of `gr::State` (local walk, remote merge, unresolved-entry
resolution, watermark persistence and advance) and of the header and body callbacks
of `gr::http::CurlAgent`, together with the properties proved about them.

`State.cc` is embedded line by line.  The classes it calls into (`Entry`,
`Resource`, `ResourceTree`, `DateTime`, `Val`) are declared elsewhere in the
repository; their embeddings follow the specification and say so.

`assert` is embedded as in a release build (`NDEBUG`): it has no effect on the state.
What the assertions of the merge and resolution paths demand is embedded apart, as
the predicates `UpdateAsserts`, `FromRemoteAsserts` and `ResolveEntryAsserts`.
-/

namespace Grive

/-! ## Collaborator types -/

/-- Modelled from the spec: `DateTime`, a watermark of seconds and nanoseconds.
`DateTime()` is the epoch. -/
structure DateTime where
  sec : Int
  nsec : Int
  deriving DecidableEq, Inhabited

/-- The default-constructed `DateTime()`: the epoch. -/
def DateTime.zero : DateTime := ⟨0, 0⟩

/-- Strict chronological order on `DateTime`: seconds first, then nanoseconds. -/
def DateTime.lt (a b : DateTime) : Bool :=
  decide (a.sec < b.sec) || (decide (a.sec = b.sec) && decide (a.nsec < b.nsec))

/-- Modelled from the spec: `Entry`, the immutable snapshot of one remote object
(§3): identifier, parent identifiers, display name, on-disk name, content source,
folder flag, change-feed flag and modification time. -/
structure Entry where
  selfHref : String
  parentHrefs : List String
  name : String
  filename : String
  contentSrc : String
  isDir : Bool
  isChange : Bool
  mtime : DateTime
  deriving DecidableEq, Inhabited

/-- Modelled from the spec: `Entry::ParentHref`, the parent identifier used for
placement: the first of the parent identifiers, the empty string when there is none. -/
def Entry.ParentHref (e : Entry) : String :=
  e.parentHrefs.headD ""

/-- Modelled from the spec: `Resource`, a node of the merged tree (§3).  Nodes live
in an arena and are addressed by their position (§9), so `parent` and `children`
hold positions. -/
structure Resource where
  name : String
  isFolder : Bool
  parent : Option Nat
  children : List Nat
  localMtime : DateTime
  present : Bool
  localNewer : Bool
  href : String
  parentHref : String
  remoteMtime : DateTime
  contentSrc : String
  remoteNewer : Bool
  deriving DecidableEq, Inhabited

/-- Modelled from the spec: the constructor `Resource( name, kind )`: a detached
node with no remote identity and nothing observed locally. -/
def Resource.new (name : String) (isFolder : Bool) : Resource :=
  { name := name, isFolder := isFolder, parent := none, children := [],
    localMtime := DateTime.zero, present := false, localNewer := false,
    href := "", parentHref := "", remoteMtime := DateTime.zero, contentSrc := "",
    remoteNewer := false }

/-- Modelled from the spec: `Resource::IsRoot`: the root is the node without a parent. -/
def Resource.IsRoot (r : Resource) : Bool := r.parent.isNone

/-- Modelled from the spec: `Resource::FromRemote( e, watermark )`: the Entry's
remote-side attributes are merged into the node; the Entry counts as newer than what
is recorded when its modification time lies above the watermark (§3: the watermark
is the time below which remote entries are assumed already reconciled). -/
def Resource.FromRemote (r : Resource) (e : Entry) (watermark : DateTime) : Resource :=
  { r with href := e.selfHref, parentHref := e.ParentHref, remoteMtime := e.mtime,
           contentSrc := e.contentSrc, remoteNewer := watermark.lt e.mtime }

/-- Modelled from the spec: `Resource::FromLocal( watermark )`: the node is marked as
seen locally with the modification time found on disk; it counts as locally newer
when that time lies above the watermark. -/
def Resource.FromLocal (r : Resource) (mtime : DateTime) (watermark : DateTime) : Resource :=
  { r with localMtime := mtime, present := true, localNewer := watermark.lt mtime }

/-- Modelled from the spec: `ResourceTree` (§3, §4.1): the arena of owned nodes, the
root at position 0, and the identifier index, kept as the list of registered nodes
and searched by the remote identifier each of them carries. -/
structure ResourceTree where
  nodes : List Resource
  index : List Nat
  deriving DecidableEq, Inhabited

namespace ResourceTree

/-- The node behind a handle. -/
def node (t : ResourceTree) (i : Nat) : Resource := t.nodes.getD i default

/-- Modelled from the spec: `ResourceTree::Root`: the handle of the root node. -/
def Root (_t : ResourceTree) : Nat := 0

/-- Modelled from the spec: `FindByHref` (§4.1): look the identifier up in the index. -/
def FindByHref (t : ResourceTree) (href : String) : Option Nat :=
  t.index.find? (fun i => (t.node i).href == href)

/-- Modelled from the spec: `Resource::FindChild` (§4.1): exact name match among the
direct children. -/
def FindChild (t : ResourceTree) (parent : Nat) (name : String) : Option Nat :=
  (t.node parent).children.find? (fun c => (t.node c).name == name)

/-- Allocation `new Resource( name, kind )`: the fresh node gets the next handle. -/
def alloc (t : ResourceTree) (name : String) (isFolder : Bool) : Nat × ResourceTree :=
  (t.nodes.length, { t with nodes := t.nodes ++ [Resource.new name isFolder] })

/-- Replace the node behind a handle. -/
def setNode (t : ResourceTree) (i : Nat) (r : Resource) : ResourceTree :=
  { t with nodes := t.nodes.set i r }

/-- Modelled from the spec: `Resource::AddChild`: the child is appended to the
parent's children and gets the parent as its back-reference. -/
def AddChild (t : ResourceTree) (parent child : Nat) : ResourceTree :=
  let t1 := t.setNode parent { t.node parent with children := (t.node parent).children ++ [child] }
  t1.setNode child { t1.node child with parent := some parent }

/-- Modelled from the spec: `ResourceTree::Insert` (§4.1): register the node in the
identifier index. -/
def Insert (t : ResourceTree) (c : Nat) : ResourceTree :=
  { t with index := t.index ++ [c] }

/-- Modelled from the spec: `ResourceTree::Update( res, e, watermark )`: merge the
Entry into the node; the index follows the node's new identifier. -/
def Update (t : ResourceTree) (res : Nat) (e : Entry) (watermark : DateTime) : ResourceTree :=
  t.setNode res ((t.node res).FromRemote e watermark)

/-- Join of a relative path and a name, as `operator/` of a path: an empty left side
adds no separator. -/
def pathJoin (p n : String) : String :=
  if p = "" then n else p ++ "/" ++ n

/-- Walk of the parent links with a bound on the number of steps. -/
def relPathAux (t : ResourceTree) : Nat → Nat → String
  | 0, _ => ""
  | fuel + 1, i =>
    match (t.node i).parent with
    | none => ""
    | some p => pathJoin (relPathAux t fuel p) (t.node i).name

/-- Modelled from the spec: `Resource::RelPath` (§4.1): the names along the parent
links up to the root, whose own relative path is empty. -/
def RelPath (t : ResourceTree) (i : Nat) : String :=
  relPathAux t t.nodes.length i

end ResourceTree

/-! ## `State` -/

/-- What `State.cc` takes from outside the language-level data: the compiled ignore
pattern `m_ign`, as the predicate `regex_match( ·, m_ign )`, and the value a caller
reads from `Update` when `Update` reaches the end of its body without a `return`
statement (lines 183-192), which C++ leaves unspecified. -/
structure Env where
  regex_match : String → Bool
  noReturn : Bool

/-- The fields of `gr::State`. -/
structure State where
  m_res : ResourceTree
  m_dir : String
  m_last_sync : DateTime
  m_cstamp : Int
  m_unresolved : List Entry
  deriving DecidableEq, Inhabited

namespace State

/-- `State::IsIgnore` (lines 63-66). -/
def IsIgnore (x : Env) (filename : String) : Bool :=
  x.regex_match filename

/-- `State::Update` (lines 178-230): the result and the state after the call. -/
def Update (x : Env) (s : State) (e : Entry) : Bool × State :=
  match s.m_res.FindByHref e.selfHref with
  | some res =>
    let path := s.m_res.RelPath res
    if IsIgnore x path then (true, s)
    else (x.noReturn, { s with m_res := s.m_res.Update res e s.m_last_sync })
  | none =>
    match s.m_res.FindByHref e.ParentHref with
    | some parent =>
      let path := if (s.m_res.node parent).IsRoot then e.name
                  else ResourceTree.pathJoin (s.m_res.RelPath parent) e.name
      if IsIgnore x path then (true, s)
      else
        match s.m_res.FindChild parent e.name with
        | some child => (true, { s with m_res := s.m_res.Update child e s.m_last_sync })
        | none =>
          if e.isDir || e.filename ≠ "" then
            let a := s.m_res.alloc e.name e.isDir
            let t2 := (a.2.AddChild parent a.1).Insert a.1
            (true, { s with m_res := t2.Update a.1 e s.m_last_sync })
          else (true, s)
    | none => (false, s)

/-- `State::FromChange` (lines 168-176). -/
def FromChange (s : State) (e : Entry) : State :=
  match s.m_res.FindByHref e.selfHref with
  | some res => { s with m_res := s.m_res.Update res e DateTime.zero }
  | none => s

/-- The scope filter of `FromRemote` (line 119). -/
def scopeSkip (s : State) (e : Entry) : Bool :=
  e.ParentHref == (s.m_res.node s.m_res.Root).href && s.m_dir != "" && e.name != s.m_dir

/-- The content filter of `FromRemote` (line 123). -/
def contentSkip (e : Entry) : Bool :=
  !e.isDir && (e.filename == "" || e.contentSrc == "")

/-- The name filter of `FromRemote` (line 126): `fn.find('/') != fn.npos`. -/
def slashSkip (e : Entry) : Bool :=
  e.filename.data.contains '/'

/-- The multi-parent filter of `FromRemote` (line 129). -/
def parentSkip (e : Entry) : Bool :=
  !e.isChange && e.parentHrefs.length != 1

/-- `State::FromRemote` (lines 114-137). -/
def FromRemote (x : Env) (s : State) (e : Entry) : State :=
  if scopeSkip s e then s
  else if contentSkip e then s
  else if slashSkip e then s
  else if parentSkip e then s
  else if e.isChange then FromChange s e
  else
    let r := Update x s e
    if !r.1 then { r.2 with m_unresolved := r.2.m_unresolved ++ [e] } else r.2

/-- The loop of `State::TryResolveEntry` (lines 155-164) from the iterator position
on: `kept` are the entries before the iterator, which stayed; the second list is the
rest of the vector. -/
def tryLoop (x : Env) : List Entry → List Entry → State → Nat → Nat × State
  | kept, [], s, count => (count, { s with m_unresolved := kept })
  | kept, e :: rest, s, count =>
    let r := Update x { s with m_unresolved := kept ++ e :: rest } e
    if r.1 then tryLoop x kept rest r.2 (count + 1)
    else tryLoop x (kept ++ [e]) rest r.2 count

/-- `State::TryResolveEntry` (lines 148-166): the number of entries removed and the
state after the scan. -/
def TryResolveEntry (x : Env) (s : State) : Nat × State :=
  tryLoop x [] s.m_unresolved s 0

/-- The `while` loop of `State::ResolveEntry` (lines 141-145) with a bound on the
number of iterations; the result carries the number of calls of `TryResolveEntry`
made, and is `none` when the bound is used up before the loop ends. -/
def resolveLoop (x : Env) : Nat → State → Option (Nat × State)
  | fuel, s =>
    if s.m_unresolved.isEmpty then some (0, s)
    else
      match fuel with
      | 0 => none
      | fuel + 1 =>
        let r := TryResolveEntry x s
        if r.1 == 0 then some (1, r.2)
        else (resolveLoop x fuel r.2).map (fun p => (p.1 + 1, p.2))

/-- `State::ResolveEntry` (lines 139-146); the loop gets one iteration per queued
entry. -/
def ResolveEntry (x : Env) (s : State) : Option (Nat × State) :=
  resolveLoop x s.m_unresolved.length s

/-! ### Local walk -/

end State

/-- The status `fs::status` reports for a directory entry. -/
inductive FileType where
  | regular
  | directory
  | notFound
  deriving DecidableEq, Inhabited

/-- A directory listing as `fs::directory_iterator` yields it: entry after entry, each
with its file name, status, modification time and, for a directory, its own listing. -/
inductive Dir where
  | nil : Dir
  | cons (fname : String) (type : FileType) (mtime : DateTime) (sub : Dir) (rest : Dir) : Dir
  deriving DecidableEq, Inhabited

namespace State

/-- `folder->FromLocal( m_last_sync )` (lines 74 and 106) on the node behind a handle. -/
def touch (s : State) (i : Nat) (mtime : DateTime) : State :=
  { s with m_res := s.m_res.setNode i ((s.m_res.node i).FromLocal mtime s.m_last_sync) }

/-- The `for` loop of `State::FromLocal( p, folder )` (lines 76-111) over the listing
of `p`; the recursive call of line 109 is the folder's own `FromLocal` (line 74)
followed by the loop over the sub-listing. -/
def walk (x : Env) : Nat → Dir → State → State
  | _, Dir.nil, s => s
  | folder, Dir.cons fname type mtime sub rest, s =>
    let path := if (s.m_res.node folder).IsRoot then fname
                else ResourceTree.pathJoin (s.m_res.RelPath folder) fname
    if IsIgnore x path then walk x folder rest s
    else if folder == s.m_res.Root && s.m_dir != "" && fname != s.m_dir then
      walk x folder rest s
    else if type == FileType.notFound then walk x folder rest s
    else
      let is_dir := type == FileType.directory
      let r : Nat × State :=
        match s.m_res.FindChild folder fname with
        | some c => (c, s)
        | none =>
          let a := s.m_res.alloc fname is_dir
          (a.1, { s with m_res := (a.2.AddChild folder a.1).Insert a.1 })
      let s2 := touch r.2 r.1 mtime
      let s3 := if is_dir then walk x r.1 sub (touch s2 r.1 mtime) else s2
      walk x folder rest s3

/-- `State::FromLocal( p, folder )` (lines 68-112): `mtime` is the modification time
of the directory `p` itself, `p` its listing. -/
def FromLocalAt (x : Env) (folder : Nat) (mtime : DateTime) (p : Dir) (s : State) : State :=
  walk x folder p (touch s folder mtime)

/-- `State::FromLocal( p )` (lines 58-61). -/
def FromLocal (x : Env) (mtime : DateTime) (p : Dir) (s : State) : State :=
  FromLocalAt x s.m_res.Root mtime p s

/-! ### Watermark: advance and persistence -/

/-- `State::Sync` (lines 282-304).  `sync` is the transfer collaborator
`Root()->Sync( syncer, last_sync_time, options )`: from the tree and the copy of the
watermark it gives the tree and the watermark after the pass; `now` is
`DateTime::Now()`. -/
def Sync (sync : ResourceTree → DateTime → ResourceTree × DateTime) (now : DateTime)
    (s : State) : State :=
  let last_sync_time := s.m_last_sync
  let r := sync s.m_res last_sync_time
  if r.2 = s.m_last_sync then { s with m_res := r.1, m_last_sync := now }
  else { s with m_res := r.1, m_last_sync := r.2 }

/-- The conversion `(int)` of line 271: the value modulo 2^32, read as signed. -/
def toInt32 (v : Int) : Int :=
  (v + 2147483648) % 4294967296 - 2147483648

/-- The conversion `(unsigned)` of line 272: the value modulo 2^32. -/
def toUInt32 (v : Int) : Int :=
  v % 4294967296

/-- Modelled from the spec: the persisted record (§6),
with the fields `last_sync.sec`, `last_sync.nsec` and `change_stamp`, as the `Val`
that `State::Write` streams out and `ParseJson` gives back. -/
structure StateFile where
  sec : Int
  nsec : Int
  change_stamp : Int
  deriving DecidableEq, Inhabited

/-- `State::Write` (lines 268-280): the record written. -/
def Write (s : State) : StateFile :=
  { sec := toInt32 s.m_last_sync.sec, nsec := toUInt32 s.m_last_sync.nsec,
    change_stamp := s.m_cstamp }

/-- `State::Read` (lines 247-266): `file` is the parsed record, `none` when opening,
parsing or a field access throws. -/
def Read (file : Option StateFile) (s : State) : State :=
  match file with
  | some json => { s with m_last_sync := ⟨json.sec, json.nsec⟩, m_cstamp := json.change_stamp }
  | none => { s with m_last_sync := DateTime.zero }

end State

/-! ## Arena invariant and the local-side erasure -/

/-- The arena invariant of a tree built from the root by `new Resource` and `AddChild`:
the root exists, every parent link points to an earlier node, and the children of a
node are later nodes of the arena. -/
def ResourceTree.WellFormed (t : ResourceTree) : Bool :=
  decide (0 < t.nodes.length) &&
  (List.range t.nodes.length).all (fun i =>
    (match (t.node i).parent with
      | none => true
      | some p => decide (p < i)) &&
    (t.node i).children.all (fun c => decide (i < c) && decide (c < t.nodes.length)))

/-- A node with what was observed locally left out. -/
def Resource.eraseLocal (r : Resource) : Resource :=
  { r with localMtime := DateTime.zero, present := false, localNewer := false }

/-- A tree with what was observed locally left out of every node: the nodes with their
names, kinds, parent links, children and remote side, and the identifier index. -/
def ResourceTree.eraseLocal (t : ResourceTree) : ResourceTree :=
  { t with nodes := t.nodes.map Resource.eraseLocal }

namespace State

/-- The three skip conditions of the local walk (lines 82, 86 and 90) taken together. -/
def skips (x : Env) (s : State) (folder : Nat) (fname : String) (type : FileType) : Bool :=
  IsIgnore x (if (s.m_res.node folder).IsRoot then fname
              else ResourceTree.pathJoin (s.m_res.RelPath folder) fname) ||
  (folder == s.m_res.Root && s.m_dir != "" && fname != s.m_dir) ||
  type == FileType.notFound

/-- Lines 98-104 of the local walk: the child of that name, created when there is none. -/
def ensureChild (s : State) (folder : Nat) (fname : String) (is_dir : Bool) : Nat × State :=
  match s.m_res.FindChild folder fname with
  | some c => (c, s)
  | none =>
    let a := s.m_res.alloc fname is_dir
    (a.1, { s with m_res := (a.2.AddChild folder a.1).Insert a.1 })

/-- The tree already mirrors the listing below the folder: every entry that is not
skipped has a child of its name and, for a directory, the same holds below it. -/
def Covered (x : Env) : Nat → Dir → State → Prop
  | _, Dir.nil, _ => True
  | folder, Dir.cons fname type _ sub rest, s =>
    (skips x s folder fname type = true ∨
      ∃ c, s.m_res.FindChild folder fname = some c ∧
        (type = FileType.directory → Covered x c sub s)) ∧
    Covered x folder rest s

/-- The second state extends the first: the same scope restriction, the nodes of the
first with their names and parent links, and their children possibly followed by
more. -/
def Extends (s s' : State) : Prop :=
  s'.m_dir = s.m_dir ∧ s.m_res.nodes.length ≤ s'.m_res.nodes.length ∧
  ∀ i, i < s.m_res.nodes.length →
    (s'.m_res.node i).name = (s.m_res.node i).name ∧
    (s'.m_res.node i).parent = (s.m_res.node i).parent ∧
    (s.m_res.node i).children <+: (s'.m_res.node i).children

/-- The two states differ at most in what was observed locally. -/
def SameShape (s s' : State) : Prop :=
  s'.m_res.eraseLocal = s.m_res.eraseLocal ∧ s'.m_dir = s.m_dir

end State

/-! ## The specification's notion of an entry that can never resolve -/

/-- The specification's "parent chain reaches a Resource in the tree" (§8, fixed-point
termination), following its words: an identifier reaches the tree when it is in the
index, or when it is the identifier of a queued entry whose parent identifier reaches
the tree. -/
inductive SpecReaches (t : ResourceTree) (queue : List Entry) : String → Prop
  | known (href : String) : (t.FindByHref href).isSome = true → SpecReaches t queue href
  | step (e : Entry) : e ∈ queue → SpecReaches t queue e.ParentHref →
      SpecReaches t queue e.selfHref

/-- The specification's "can never resolve", following its words: neither the entry's
own identifier nor its parent chain reaches a Resource in the tree. -/
def SpecNeverResolves (s : State) (e : Entry) : Prop :=
  s.m_res.FindByHref e.selfHref = none ∧
    ¬ SpecReaches s.m_res s.m_unresolved e.ParentHref

/-! ## The merge of a new child, and what resolution keeps -/

/-- Every handle registered in the identifier index is a node of the arena (§3: no node
exists in the index without existing in the tree). -/
def ResourceTree.IndexInRange (t : ResourceTree) : Bool :=
  t.index.all (fun i => decide (i < t.nodes.length))

/-- The tree that `State::Update` builds at lines 218-223: a new Resource for the entry,
attached to the parent, registered in the index and merged with the entry. -/
def ResourceTree.attach (t : ResourceTree) (parent : Nat) (e : Entry) (w : DateTime) :
    ResourceTree :=
  (((t.alloc e.name e.isDir).2.AddChild parent (t.alloc e.name e.isDir).1).Insert
    (t.alloc e.name e.isDir).1).Update (t.alloc e.name e.isDir).1 e w

namespace State

/-- What holds of the tree and the entries still queued all through the resolution of
the queue of `s₀`, when the queued entries have pairwise different identifiers of which
none is in the index: the same holds of the entries still queued, they come from the
queue of `s₀`, every identifier in the index reaches the tree of `s₀` along the queue,
and so does the parent identifier of every entry that has left the queue. -/
def ResolveInv (s₀ : State) (t : ResourceTree) (queue : List Entry) : Prop :=
  (queue.map Entry.selfHref).Nodup ∧
  (∀ e ∈ queue, t.FindByHref e.selfHref = none) ∧
  (∀ e ∈ queue, e ∈ s₀.m_unresolved) ∧
  (∀ h, (t.FindByHref h).isSome = true → SpecReaches s₀.m_res s₀.m_unresolved h) ∧
  (∀ e ∈ s₀.m_unresolved, e ∉ queue → SpecReaches s₀.m_res s₀.m_unresolved e.ParentHref)

/-- None of the designed exceptions of `Update` applies to the queue: the tree
satisfies the arena invariants, no queued entry has a path that is ignored, every
queued entry is a folder or has an on-disk name, no queued entry finds a child of its
name under its parent, and no two queued entries have the same parent identifier and
name. -/
def Unhindered (x : Env) (s : State) : Prop :=
  s.m_res.WellFormed = true ∧ s.m_res.IndexInRange = true ∧
  (∀ e ∈ s.m_unresolved, ∀ p, IsIgnore x (ResourceTree.pathJoin p e.name) = false) ∧
  (∀ e ∈ s.m_unresolved, e.isDir = true ∨ e.filename ≠ "") ∧
  (∀ e ∈ s.m_unresolved, ∀ p, s.m_res.FindByHref e.ParentHref = some p →
    s.m_res.FindChild p e.name = none) ∧
  (∀ e ∈ s.m_unresolved, ∀ e' ∈ s.m_unresolved, e.selfHref ≠ e'.selfHref →
    e.ParentHref = e'.ParentHref → e.name ≠ e'.name)

/-- What holds in addition all through the resolution of an unhindered queue: the
arena invariants, no queued entry finds a child of its name under its parent, every
identifier in the index of `s₀` stays in the index, and the identifier of every entry
that has left the queue is in the index. -/
def FreeInv (s₀ : State) (t : ResourceTree) (queue : List Entry) : Prop :=
  ResolveInv s₀ t queue ∧
  t.WellFormed = true ∧ t.IndexInRange = true ∧
  (∀ e ∈ queue, ∀ p, t.FindByHref e.ParentHref = some p → t.FindChild p e.name = none) ∧
  (∀ h, (s₀.m_res.FindByHref h).isSome = true → (t.FindByHref h).isSome = true) ∧
  (∀ e ∈ s₀.m_unresolved, e ∉ queue → (t.FindByHref e.selfHref).isSome = true)

/-- No identifier is lost between `s` and `s'`: every identifier in the index of `s` is
in the index of `s'`, and so is the identifier of every entry that has left the
queue. -/
def NothingLost (s s' : State) : Prop :=
  (∀ h, (s.m_res.FindByHref h).isSome = true → (s'.m_res.FindByHref h).isSome = true) ∧
  (∀ e ∈ s.m_unresolved, e ∉ s'.m_unresolved →
    (s'.m_res.FindByHref e.selfHref).isSome = true)

end State

/-! ## The assertions of the merge and resolution paths -/

namespace State

/-- The assertions on the path of `State::Update` (lines 180, 181 and 195) hold: the
entry is no change-feed entry, its parent identifier is not empty, and, where the
entry itself is unknown and its parent identifier is found, the Resource found is a
folder. -/
def UpdateAsserts (s : State) (e : Entry) : Bool :=
  !e.isChange && e.ParentHref != "" &&
  (match s.m_res.FindByHref e.selfHref with
    | some _ => true
    | none =>
      match s.m_res.FindByHref e.ParentHref with
      | some parent => (s.m_res.node parent).isFolder
      | none => true)

/-- The assertion of `State::FromChange` (line 170) holds. -/
def FromChangeAsserts (e : Entry) : Bool := e.isChange

/-- The assertions on the path that `State::FromRemote` (lines 114-137) takes hold. -/
def FromRemoteAsserts (s : State) (e : Entry) : Bool :=
  if scopeSkip s e then true
  else if contentSkip e then true
  else if slashSkip e then true
  else if parentSkip e then true
  else if e.isChange then FromChangeAsserts e
  else UpdateAsserts s e

/-- The assertions of the calls of `Update` in the loop of `State::TryResolveEntry`
(line 157) hold, from the iterator position on. -/
def tryLoopAsserts (x : Env) : List Entry → List Entry → State → Bool
  | _, [], _ => true
  | kept, e :: rest, s =>
    UpdateAsserts { s with m_unresolved := kept ++ e :: rest } e &&
      (let r := Update x { s with m_unresolved := kept ++ e :: rest } e
       if r.1 then tryLoopAsserts x kept rest r.2
       else tryLoopAsserts x (kept ++ [e]) rest r.2)

/-- The assertions on the path of `State::TryResolveEntry` (lines 148-166) hold: the
queue is not empty (line 150) and so do the assertions of every `Update`. -/
def TryResolveEntryAsserts (x : Env) (s : State) : Bool :=
  !s.m_unresolved.isEmpty && tryLoopAsserts x [] s.m_unresolved s

/-- The assertions on the path of the loop of `State::ResolveEntry` hold, for as many
iterations as `resolveLoop` is given. -/
def resolveLoopAsserts (x : Env) : Nat → State → Bool
  | fuel, s =>
    if s.m_unresolved.isEmpty then true
    else
      match fuel with
      | 0 => true
      | fuel + 1 =>
        TryResolveEntryAsserts x s &&
          (let r := TryResolveEntry x s
           if r.1 == 0 then true else resolveLoopAsserts x fuel r.2)

/-- The assertions on the path of `State::ResolveEntry` (lines 139-146) hold. -/
def ResolveEntryAsserts (x : Env) (s : State) : Bool :=
  resolveLoopAsserts x s.m_unresolved.length s

end State

/-! ## `CurlAgent`: the header and body callbacks of `libgrive/src/http/CurlAgent.cc`

A `std::string` is embedded as the list of its characters; `size_t` arithmetic is
taken modulo 2^64. -/

namespace StdString

/-- `std::string::npos`: the largest `size_t`. -/
def npos : Nat := 18446744073709551615

/-- `std::string::substr( pos, n )`, for a position inside the string. -/
def substr (s : List Char) (pos n : Nat) : List Char :=
  (s.drop pos).take n

/-- The search of `std::string::find` along the rest of the string: `i` is the position
of the head of the rest. -/
def findAux (pat : List Char) : List Char → Nat → Nat
  | [], i => if pat = [] then i else npos
  | c :: cs, i => if pat.isPrefixOf (c :: cs) then i else findAux pat cs (i + 1)

/-- `std::string::find( pat, pos )`: the first position from `pos` on where `pat`
occurs, `npos` when there is none. -/
def find (s pat : List Char) (pos : Nat) : Nat :=
  if pos ≤ s.length then findAux pat (s.drop pos) pos else npos

/-- `s[9]` of line 120.  At the end of the string `operator[]` gives the null
character; further out the read is outside the string, C++ leaves its value
undefined, and it is taken as `beyond`. -/
def at9 (beyond : Char) (s : List Char) : Char :=
  match s[9]? with
  | some c => c
  | none => if s.length = 9 then Char.ofNat 0 else beyond

end StdString

/-- The product `size*nmemb` of the callbacks, in `size_t`. -/
def sizeBytes (size nmemb : Nat) : Nat :=
  (size * nmemb) % 18446744073709551616

/-- The conversion to `long` of line 148: the value modulo 2^64, read as signed. -/
def toInt64 (v : Int) : Int :=
  (v + 9223372036854775808) % 18446744073709551616 - 9223372036854775808

/-- The state of a `CurlAgent` that the callbacks read and write: the fields of
`CurlAgent::Impl` (lines 63-71), the response log `m_log` (absent, or the bytes
written to it) and the progress fields of `CurlAgent.hh`.  `dest` is the destination
stream of the running transfer (line 255), as the bytes written to it. -/
structure CurlAgent where
  location : List Char
  error : Bool
  error_headers : List Char
  error_data : List Char
  dest : List Char
  m_log : Option (List Char)
  hundredpercentDone : Bool
  totalDownlaodSize : Int
  downloadedBytes : Int
  deriving DecidableEq, Inhabited

namespace CurlAgent

/-- The part of `CurlAgent::Init` (lines 93-96) that resets the error state; the
destination of the coming transfer starts with nothing written. -/
def Init (a : CurlAgent) : CurlAgent :=
  { a with error := false, error_headers := [], error_data := [], dest := [] }

/-- `CurlAgent::HeaderCallback` (lines 114-138): the value returned and the agent after
the call.  `ptr` is the buffer handed in, of which the first `size*nmemb` characters
are the header line. -/
def HeaderCallback (beyond : Char) (ptr : List Char) (size nmemb : Nat)
    (pthis : CurlAgent) : Nat × CurlAgent :=
  let line := ptr.take (sizeBytes size nmemb)
  let a1 : CurlAgent :=
    if StdString.substr line 0 5 = "HTTP/".data ∧ '4' ≤ StdString.at9 beyond line then
      { pthis with error := true }
    else pthis
  let a2 : CurlAgent :=
    if a1.error then { a1 with error_headers := a1.error_headers ++ line } else a1
  let a3 : CurlAgent :=
    match a2.m_log with
    | some log => { a2 with m_log := some (log ++ line) }
    | none => a2
  let loc := "Location: ".data
  let pos := StdString.find line loc 0
  let a4 : CurlAgent :=
    if pos ≠ StdString.npos then
      let end_pos := StdString.find line "\r\n".data pos
      { a3 with
        location := StdString.substr line loc.length
          ((end_pos + 18446744073709551616 - loc.length) % 18446744073709551616) }
    else a3
  (sizeBytes size nmemb, a4)

/-- `CurlAgent::Receive` (lines 140-159): the value returned and the agent after the
call.  `full processed total` stands for the floating-point test
`fraction*100 >= 100.0` of `progress_callback` (lines 202-231), which decides the
flag `hundredpercentDone`; what `progress_callback` prints is left out.
`DataStream::Write` is taken to write every byte and to return their number. -/
def Receive (full : Int → Int → Bool) (ptr : List Char) (size nmemb : Nat)
    (pthis : CurlAgent) : Nat × CurlAgent :=
  let data := ptr.take (sizeBytes size nmemb)
  let a1 : CurlAgent :=
    match pthis.m_log with
    | some log => { pthis with m_log := some (log ++ data) }
    | none => pthis
  let a2 : CurlAgent :=
    if 0 < a1.totalDownlaodSize then
      let downloaded := toInt64 (a1.downloadedBytes + sizeBytes size nmemb)
      let processed := if downloaded > a1.totalDownlaodSize then a1.totalDownlaodSize
                       else downloaded
      { a1 with downloadedBytes := downloaded,
                hundredpercentDone := full processed a1.totalDownlaodSize }
    else a1
  if a2.error ∧ a2.error_data.length < 65536 then
    (sizeBytes size nmemb, { a2 with error_data := a2.error_data ++ data })
  else
    (sizeBytes size nmemb, { a2 with dest := a2.dest ++ data })

/-- `CurlAgent::LastError` (lines 346-349). -/
def LastError (a : CurlAgent) : List Char := a.error_data

/-- `CurlAgent::LastErrorHeaders` (lines 351-354). -/
def LastErrorHeaders (a : CurlAgent) : List Char := a.error_headers

/-- The claim's "status code" of a header line, following its words: for a line that
starts with `HTTP/`, the decimal number that follows the first space. -/
def specStatusCode (line : List Char) : Option Nat :=
  if "HTTP/".data.isPrefixOf line then
    let digits := ((line.dropWhile (fun c => c != ' ')).drop 1).takeWhile Char.isDigit
    if digits = [] then none
    else some (digits.foldl (fun n c => 10 * n + (c.toNat - 48)) 0)
  else none

/-- The decimal digit `d` as a character. -/
def digit (d : Nat) : Char := Char.ofNat (48 + d)

/-- The claim's "HTTP status line whose status code is 400 or above". -/
def specIsErrorStatus (line : List Char) : Bool :=
  match specStatusCode line with
  | some code => decide (400 ≤ code)
  | none => false

end CurlAgent

/-! ## Example inputs -/

namespace Example

/-- An ignore pattern that matches nothing; `Update` reads as `true` where it has no
`return`. -/
def env : Env := { regex_match := fun _ => false, noReturn := true }

/-- As `env`, with `Update` read as `false` where it has no `return`. -/
def envFalse : Env := { regex_match := fun _ => false, noReturn := false }

/-- An ignore pattern that matches exactly the path `skip`. -/
def envSkip : Env := { regex_match := fun p => p == "skip", noReturn := true }

/-- The root folder, with remote identifier `root`. -/
def rootRes : Resource := { Resource.new "." true with href := "root" }

/-- A tree that holds the root only. -/
def rootTree : ResourceTree := { nodes := [rootRes], index := [0] }

/-- A state over `rootTree` with watermark 100 s and an empty queue. -/
def s0 : State :=
  { m_res := rootTree, m_dir := "", m_last_sync := ⟨100, 0⟩, m_cstamp := 0,
    m_unresolved := [] }

/-- A file `doc` under the root with remote identifier `d`, observed locally. -/
def docRes : Resource :=
  { Resource.new "doc" false with
    parent := some 0, href := "d", parentHref := "root",
    localMtime := ⟨200, 0⟩, present := true, localNewer := true }

/-- A state whose root has the child `docRes`. -/
def s1 : State :=
  { s0 with m_res := { nodes := [{ rootRes with children := [1] }, docRes], index := [0, 1] } }

/-- An ordinary file entry with two parents. -/
def twoParents : Entry :=
  { selfHref := "t", parentHrefs := ["root", "p"], name := "t.txt", filename := "t.txt",
    contentSrc := "src", isDir := false, isChange := false, mtime := ⟨150, 0⟩ }

/-- A change-feed entry for the resource `d`, older than the watermark of `s1`. -/
def changeDoc : Entry :=
  { selfHref := "d", parentHrefs := ["root"], name := "doc", filename := "doc",
    contentSrc := "src", isDir := false, isChange := true, mtime := ⟨50, 0⟩ }

/-- An ordinary entry for the resource `d`. -/
def knownDoc : Entry := { changeDoc with isChange := false }

/-- An ordinary folder entry under the root whose name holds a slash and whose on-disk
name is empty. -/
def slashFolder : Entry :=
  { selfHref := "f", parentHrefs := ["root"], name := "a/b", filename := "",
    contentSrc := "", isDir := true, isChange := false, mtime := ⟨150, 0⟩ }

/-- A state whose watermark lies in the year 2038, past 2^31 - 1 seconds. -/
def sLate : State := { s0 with m_last_sync := ⟨2147483648, 500⟩, m_cstamp := 42 }

/-- The state of the specification's round-trip example. -/
def sStamp : State := { s0 with m_last_sync := ⟨1700000000, 500⟩, m_cstamp := 42 }

/-- A folder `q` under the root with remote identifier `q`. -/
def qRes : Resource :=
  { Resource.new "q" true with parent := some 0, href := "q", parentHref := "root" }

/-- An ordinary file entry under the folder with identifier `a`. -/
def underA : Entry :=
  { selfHref := "e1", parentHrefs := ["a"], name := "leaf", filename := "leaf",
    contentSrc := "src", isDir := false, isChange := false, mtime := ⟨150, 0⟩ }

/-- An ordinary folder entry `x` with identifier `a` under the folder `q`. -/
def folderA : Entry :=
  { selfHref := "a", parentHrefs := ["q"], name := "x", filename := "x",
    contentSrc := "", isDir := true, isChange := false, mtime := ⟨150, 0⟩ }

/-- A second ordinary folder entry named `x` under `q`, with identifier `b`. -/
def folderB : Entry := { folderA with selfHref := "b" }

/-- A state whose tree holds the root and the folder `q` and whose queue holds three
entries merged before `q` was known. -/
def sQueue : State :=
  { s0 with
    m_res := { nodes := [{ rootRes with children := [1] }, qRes], index := [0, 1] },
    m_unresolved := [underA, folderA, folderB] }

/-- An ordinary file entry named `gone` under the root. -/
def goneEntry : Entry :=
  { selfHref := "g", parentHrefs := ["root"], name := "gone", filename := "gone",
    contentSrc := "src", isDir := false, isChange := false, mtime := ⟨150, 0⟩ }

/-- A listing with the one entry `gone`, a broken symbolic link. -/
def goneDir : Dir := Dir.cons "gone" FileType.notFound ⟨0, 0⟩ Dir.nil Dir.nil

/-- An ordinary file entry named `skip` under the root. -/
def skipEntry : Entry := { goneEntry with selfHref := "k", name := "skip", filename := "skip" }

/-- An ordinary folder entry `P` under the root, with identifier `p`. -/
def parentP : Entry :=
  { selfHref := "p", parentHrefs := ["root"], name := "P", filename := "P",
    contentSrc := "", isDir := true, isChange := false, mtime := ⟨150, 0⟩ }

/-- A local directory: a file `a.txt` and a folder `docs` that holds a file `b.txt`. -/
def localDir : Dir :=
  Dir.cons "a.txt" FileType.regular ⟨120, 0⟩ Dir.nil
    (Dir.cons "docs" FileType.directory ⟨90, 0⟩
      (Dir.cons "b.txt" FileType.regular ⟨80, 0⟩ Dir.nil Dir.nil) Dir.nil)

/-- An ordinary file entry `doc` under the root, with identifier `d`. -/
def fileDoc : Entry :=
  { selfHref := "d", parentHrefs := ["root"], name := "doc", filename := "doc",
    contentSrc := "src", isDir := false, isChange := false, mtime := ⟨150, 0⟩ }

/-- An ordinary file entry that names the file `d` as its parent. -/
def underFile : Entry :=
  { selfHref := "u", parentHrefs := ["d"], name := "note", filename := "note",
    contentSrc := "src", isDir := false, isChange := false, mtime := ⟨150, 0⟩ }

/-- An ordinary file entry whose one parent identifier is the empty string. -/
def emptyParent : Entry := { underFile with parentHrefs := [""] }

/-- An agent at the start of a transfer: no error seen, nothing written, no log. -/
def agent : CurlAgent :=
  { location := [], error := false, error_headers := [], error_data := [], dest := [],
    m_log := none, hundredpercentDone := false, totalDownlaodSize := 0,
    downloadedBytes := 0 }

/-- An agent in the middle of an error response, with 65536 bytes of its body in the
error buffer. -/
def agentFull : CurlAgent :=
  { agent with error := true, error_data := List.replicate 65536 'x' }

/-- The floating-point test of the progress display, taken as exact. -/
def full (processed total : Int) : Bool := decide (total ≤ processed)

/-- An ordinary file entry under a folder with identifier `zz`, which no entry and no
Resource carries. -/
def dangling : Entry := { underA with selfHref := "e2", parentHrefs := ["zz"], name := "lost" }

/-- The tree of `sQueue` with a queue of a file, the folder it waits for, and an entry
whose parent never arrives. -/
def sChain : State := { sQueue with m_unresolved := [underA, folderA, dangling] }

/-- An ordinary file entry under the entry `skip`. -/
def underSkip : Entry := { underA with parentHrefs := ["k"] }

/-- A state over the root whose queue holds `skip` and an entry under it. -/
def sSkip : State := { s0 with m_unresolved := [underSkip, skipEntry] }

/-- An ordinary file entry under the root without an on-disk name. -/
def noName : Entry := { goneEntry with selfHref := "n", name := "gdoc", filename := "" }

/-- An ordinary file entry under the entry `gdoc`. -/
def underNoName : Entry := { underA with parentHrefs := ["n"] }

/-- A state over the root whose queue holds `gdoc` and an entry under it. -/
def sNoName : State := { s0 with m_unresolved := [underNoName, noName] }

/-- A folder `x` under the folder `q`, with remote identifier `a`. -/
def xRes : Resource :=
  { Resource.new "x" true with parent := some 1, href := "a", parentHref := "q" }

/-- A state whose tree holds the root, the folder `q` and under it the folder `x` with
identifier `a`, and whose queue holds a second folder entry named `x` and a file under
`a`. -/
def sTaken : State :=
  { s0 with
    m_res :=
      { nodes := [{ rootRes with children := [1] }, { qRes with children := [2] }, xRes],
        index := [0, 1, 2] },
    m_unresolved := [folderB, underA] }

/-- A state over the root whose queue holds an entry with the identifier of the
root. -/
def sStale : State := { s0 with m_unresolved := [{ parentP with selfHref := "root" }] }

/-- A state over the root whose queue holds the folder entry `P` twice. -/
def sTwice : State := { s0 with m_unresolved := [parentP, parentP] }

end Example

/-! ## Properties -/

namespace State

/-! ### The arena -/

/-- Beyond the arena a handle reads as the default node. -/
theorem node_default (t : ResourceTree) (i : Nat) (h : t.nodes.length ≤ i) :
    t.node i = default := by
  simp [ResourceTree.node, List.getD_eq_getElem?_getD, List.getElem?_eq_none h]

/-- The node read after a replacement. -/
theorem node_setNode (t : ResourceTree) (i j : Nat) (r : Resource) :
    (t.setNode i r).node j = if j = i ∧ i < t.nodes.length then r else t.node j := by
  unfold ResourceTree.setNode ResourceTree.node
  simp only [List.getD_eq_getElem?_getD, List.getElem?_set]
  by_cases hji : i = j
  · subst hji
    by_cases hlt : i < t.nodes.length
    · simp [hlt]
    · simp [hlt, List.getElem?_eq_none (Nat.le_of_not_lt hlt)]
  · have : ¬ (j = i ∧ i < t.nodes.length) := fun h => hji h.1.symm
    simp [hji, this]

/-- The node read after an allocation. -/
theorem node_alloc (t : ResourceTree) (name : String) (k : Bool) (j : Nat) :
    (t.alloc name k).2.node j =
      if j = t.nodes.length then Resource.new name k else t.node j := by
  unfold ResourceTree.alloc ResourceTree.node
  simp only [List.getD_eq_getElem?_getD]
  by_cases h1 : j < t.nodes.length
  · have : j ≠ t.nodes.length := Nat.ne_of_lt h1
    simp [List.getElem?_append_left h1, this]
  · by_cases h2 : j = t.nodes.length
    · subst h2
      simp
    · have h3 : t.nodes.length < j := by omega
      have h4 : (t.nodes ++ [Resource.new name k]).length ≤ j := by simp; omega
      simp [h2, List.getElem?_eq_none h4, List.getElem?_eq_none (Nat.le_of_not_lt h1)]

/-- Replacing a node keeps the number of nodes. -/
theorem length_setNode (t : ResourceTree) (i : Nat) (r : Resource) :
    (t.setNode i r).nodes.length = t.nodes.length := by
  simp [ResourceTree.setNode]

/-- Attaching a child keeps the number of nodes. -/
theorem length_AddChild (t : ResourceTree) (p c : Nat) :
    (t.AddChild p c).nodes.length = t.nodes.length := by
  simp [ResourceTree.AddChild, length_setNode]

/-- `AddChild` keeps every name. -/
theorem name_AddChild (t : ResourceTree) (p c j : Nat) :
    ((t.AddChild p c).node j).name = (t.node j).name := by
  simp only [ResourceTree.AddChild, node_setNode, length_setNode]
  split_ifs <;> simp_all

/-- `AddChild` keeps every remote identifier. -/
theorem href_AddChild (t : ResourceTree) (p c j : Nat) :
    ((t.AddChild p c).node j).href = (t.node j).href := by
  simp only [ResourceTree.AddChild, node_setNode, length_setNode]
  split_ifs <;> simp_all

/-- `AddChild` sets the parent link of the child only. -/
theorem parent_AddChild (t : ResourceTree) (p c j : Nat) :
    ((t.AddChild p c).node j).parent =
      if j = c ∧ c < t.nodes.length then some p else (t.node j).parent := by
  simp only [ResourceTree.AddChild, node_setNode, length_setNode]
  split_ifs <;> simp_all

/-- `AddChild` extends the children of the parent only. -/
theorem children_AddChild (t : ResourceTree) (p c j : Nat) :
    ((t.AddChild p c).node j).children =
      if j = p ∧ p < t.nodes.length then (t.node j).children ++ [c]
      else (t.node j).children := by
  simp only [ResourceTree.AddChild, node_setNode, length_setNode]
  split_ifs <;> simp_all

/-- The merge of an Entry keeps the number of nodes. -/
theorem length_Update (t : ResourceTree) (r : Nat) (e : Entry) (w : DateTime) :
    (t.Update r e w).nodes.length = t.nodes.length := by
  simp [ResourceTree.Update, length_setNode]

/-- The merge of an Entry keeps every name. -/
theorem name_Update (t : ResourceTree) (r : Nat) (e : Entry) (w : DateTime) (j : Nat) :
    ((t.Update r e w).node j).name = (t.node j).name := by
  simp only [ResourceTree.Update, node_setNode, Resource.FromRemote]
  split_ifs <;> simp_all

/-- The merge of an Entry keeps every parent link. -/
theorem parent_Update (t : ResourceTree) (r : Nat) (e : Entry) (w : DateTime) (j : Nat) :
    ((t.Update r e w).node j).parent = (t.node j).parent := by
  simp only [ResourceTree.Update, node_setNode, Resource.FromRemote]
  split_ifs <;> simp_all

/-- The merge of an Entry keeps every list of children. -/
theorem children_Update (t : ResourceTree) (r : Nat) (e : Entry) (w : DateTime) (j : Nat) :
    ((t.Update r e w).node j).children = (t.node j).children := by
  simp only [ResourceTree.Update, node_setNode, Resource.FromRemote]
  split_ifs <;> simp_all

/-- The merge of an Entry gives its identifier to the merged node and to no other. -/
theorem href_Update (t : ResourceTree) (r : Nat) (e : Entry) (w : DateTime) (j : Nat) :
    ((t.Update r e w).node j).href =
      if j = r ∧ r < t.nodes.length then e.selfHref else (t.node j).href := by
  simp only [ResourceTree.Update, node_setNode, Resource.FromRemote]
  split_ifs <;> simp_all

/-- `Insert` keeps the nodes. -/
theorem node_Insert (t : ResourceTree) (c j : Nat) : (t.Insert c).node j = t.node j := rfl

/-- A lookup that fails means no registered node carries the identifier. -/
theorem FindByHref_none_iff (t : ResourceTree) (h : String) :
    t.FindByHref h = none ↔ ∀ i ∈ t.index, (t.node i).href ≠ h := by
  simp [ResourceTree.FindByHref, List.find?_eq_none]

/-- A child found by name is one of the children. -/
theorem FindChild_mem (t : ResourceTree) (p : Nat) (n : String) (c : Nat)
    (h : t.FindChild p n = some c) : c ∈ (t.node p).children :=
  List.mem_of_find?_eq_some h

/-- Predicates that agree on a list find the same element. -/
theorem find?_congr_mem {l : List Nat} {p q : Nat → Bool} (h : ∀ a ∈ l, p a = q a) :
    l.find? p = l.find? q := by
  induction l with
  | nil => rfl
  | cons a l ih =>
    have ha : p a = q a := h a (List.mem_cons_self a l)
    have hl : ∀ b ∈ l, p b = q b := fun b hb => h b (List.mem_cons_of_mem a hb)
    simp only [List.find?, ha, ih hl]

/-- The arena invariant, spelled out. -/
theorem WellFormed_iff (t : ResourceTree) :
    t.WellFormed = true ↔
      0 < t.nodes.length ∧ (∀ i p, (t.node i).parent = some p → p < i) ∧
        (∀ i c, c ∈ (t.node i).children → i < c ∧ c < t.nodes.length) := by
  unfold ResourceTree.WellFormed
  simp only [Bool.and_eq_true, decide_eq_true_eq, List.all_eq_true, List.mem_range]
  constructor
  · rintro ⟨hpos, h⟩
    refine ⟨hpos, ?_, ?_⟩
    · intro i p hp
      by_cases hi : i < t.nodes.length
      · have := (h i hi).1
        rw [hp] at this
        simpa using this
      · rw [node_default t i (Nat.le_of_not_lt hi)] at hp
        cases hp
    · intro i c hc
      by_cases hi : i < t.nodes.length
      · exact (h i hi).2 c hc
      · rw [node_default t i (Nat.le_of_not_lt hi)] at hc
        cases hc
  · rintro ⟨hpos, hp, hc⟩
    refine ⟨hpos, ?_⟩
    intro i _
    refine ⟨?_, fun c hcm => hc i c hcm⟩
    cases hpar : (t.node i).parent with
    | none => rfl
    | some p => simpa using hp i p hpar

/-! ### `Update` and `FromRemote` -/

/-- `Update` reports `false` with the state untouched when neither the entry's own
identifier nor its parent identifier is in the index. -/
theorem Update_unknown (x : Env) (s : State) (e : Entry)
    (hself : s.m_res.FindByHref e.selfHref = none)
    (hpar : s.m_res.FindByHref e.ParentHref = none) :
    Update x s e = (false, s) := by
  simp [Update, hself, hpar]

/-- With the parent known and the entry itself unknown, `Update` reports `true`. -/
theorem Update_parent_known (x : Env) (s : State) (e : Entry) (p : Nat)
    (hself : s.m_res.FindByHref e.selfHref = none)
    (hpar : s.m_res.FindByHref e.ParentHref = some p) : (Update x s e).1 = true := by
  unfold Update
  simp only [hself, hpar]
  repeat' split
  all_goals rfl

/-- With the entry itself unknown, `Update` reports `false` only with the state
untouched. -/
theorem Update_self_unknown_false (x : Env) (s : State) (e : Entry)
    (hself : s.m_res.FindByHref e.selfHref = none) (h : (Update x s e).1 = false) :
    Update x s e = (false, s) := by
  cases hpar : s.m_res.FindByHref e.ParentHref with
  | none => exact Update_unknown x s e hself hpar
  | some p =>
    rw [Update_parent_known x s e p hself hpar] at h
    cases h

/-- The identifiers in the tree that `Update` builds for a new child. -/
theorem href_created (t : ResourceTree) (p : Nat) (e : Entry) (w : DateTime) (j : Nat) :
    (((((t.alloc e.name e.isDir).2.AddChild p (t.alloc e.name e.isDir).1).Insert
        (t.alloc e.name e.isDir).1).Update (t.alloc e.name e.isDir).1 e w).node j).href =
      if j = t.nodes.length then e.selfHref else (t.node j).href := by
  rw [href_Update, node_Insert, href_AddChild, node_alloc]
  simp only [ResourceTree.Insert, length_AddChild]
  simp only [ResourceTree.alloc, List.length_append, List.length_singleton]
  by_cases hj : j = t.nodes.length
  · simp [hj]
  · simp [hj]

/-- An identifier other than the entry's own that is not in the index is not in the
index after `Update`. -/
theorem Update_href_other (x : Env) (s : State) (e : Entry) (h : String)
    (hnone : s.m_res.FindByHref h = none) (hne : h ≠ e.selfHref) :
    (Update x s e).2.m_res.FindByHref h = none := by
  rw [FindByHref_none_iff] at hnone ⊢
  unfold Update
  dsimp only
  repeat' split
  all_goals first
    | exact hnone
    | (intro i hi
       rw [href_Update]
       split_ifs
       · exact fun hh => hne hh.symm
       · exact hnone i hi)
    | (intro i hi
       rw [href_created]
       split_ifs with hlen
       · exact fun hh => hne hh.symm
       · have hi' : i ∈ s.m_res.index := by
           simp only [ResourceTree.Insert, ResourceTree.AddChild, ResourceTree.setNode,
             ResourceTree.Update, ResourceTree.alloc, List.mem_append,
             List.mem_singleton] at hi
           rcases hi with hi | hi
           · exact hi
           · exact absurd hi hlen
         exact hnone i hi')

/-- C1. Multi-parent rejection: an Entry that is not a change-feed entry and whose
parent identifiers are not exactly one leaves the state, tree and unresolved queue
alike, as it was. -/
theorem C1_multi_parent_rejected (x : Env) (s : State) (e : Entry)
    (hchange : e.isChange = false) (hparents : e.parentHrefs.length ≠ 1) :
    FromRemote x s e = s := by
  have hp : parentSkip e = true := by simp [parentSkip, hchange, hparents]
  unfold FromRemote
  split
  · rfl
  · split
    · rfl
    · split
      · rfl
      · simp [hp]

/-- C1 at an entry with two parents. -/
theorem C1_multi_parent_rejected_witness :
    Example.twoParents.isChange = false ∧ Example.twoParents.parentHrefs.length ≠ 1 ∧
      FromRemote Example.env Example.s1 Example.twoParents = Example.s1 :=
  ⟨rfl, by decide, C1_multi_parent_rejected _ _ _ rfl (by decide)⟩

/-! ### The resolution loop -/

/-- The scan keeps the entries before the iterator, keeps a sublist of the rest, and
counts what it removes. -/
theorem tryLoop_queue (x : Env) (rest : List Entry) :
    ∀ (kept : List Entry) (s : State) (count : Nat),
      ∃ kept', (tryLoop x kept rest s count).2.m_unresolved = kept ++ kept' ∧
        kept'.Sublist rest ∧
        (tryLoop x kept rest s count).1 + kept'.length = count + rest.length := by
  induction rest with
  | nil =>
    intro kept s count
    exact ⟨[], by simp [tryLoop], List.Sublist.refl _, by simp [tryLoop]⟩
  | cons e rest ih =>
    intro kept s count
    unfold tryLoop
    dsimp only
    split
    · obtain ⟨k, h1, h2, h3⟩ := ih kept (Update x { s with m_unresolved := kept ++ e :: rest } e).2
        (count + 1)
      exact ⟨k, h1, h2.cons e, by simp only [List.length_cons]; omega⟩
    · obtain ⟨k, h1, h2, h3⟩ := ih (kept ++ [e])
        (Update x { s with m_unresolved := kept ++ e :: rest } e).2 count
      exact ⟨e :: k, by simp [h1], h2.cons₂ e, by simp only [List.length_cons]; omega⟩

/-- One scan of a queue that holds a single entry. -/
theorem TryResolveEntry_single (x : Env) (s : State) (e : Entry)
    (hq : s.m_unresolved = [e]) :
    TryResolveEntry x s =
      if (Update x s e).1 = true then (1, { (Update x s e).2 with m_unresolved := [] })
      else (0, { (Update x s e).2 with m_unresolved := [e] }) := by
  have hs : { s with m_unresolved := [] ++ [e] } = s := by
    rw [← hq]
    rfl
  unfold TryResolveEntry
  rw [hq]
  unfold tryLoop
  dsimp only
  rw [hs]
  cases (Update x s e).1 <;> simp [tryLoop]

/-- Resolution of a queue that holds a single entry. -/
theorem ResolveEntry_single (x : Env) (s : State) (e : Entry) (hq : s.m_unresolved = [e]) :
    ResolveEntry x s =
      if (Update x s e).1 = true then some (1, { (Update x s e).2 with m_unresolved := [] })
      else some (1, { (Update x s e).2 with m_unresolved := [e] }) := by
  unfold ResolveEntry
  rw [hq]
  simp only [List.length_singleton]
  unfold resolveLoop
  rw [TryResolveEntry_single x s e hq]
  cases (Update x s e).1 <;> simp [hq, resolveLoop]

/-- Resolution of an empty queue makes no scan. -/
theorem ResolveEntry_empty (x : Env) (s : State) (hq : s.m_unresolved = []) :
    ResolveEntry x s = some (0, s) := by
  unfold ResolveEntry
  rw [hq]
  unfold resolveLoop
  simp [hq]

/-! ### C4: change-feed authority -/

/-- C4. Change-feed authority: a change-feed Entry that passes the scope, content and
name filters and whose identifier the index resolves to `res` is merged into `res`
with the epoch as watermark, whatever `m_last_sync` is; nothing else of the state,
the unresolved queue included, changes. -/
theorem C4_change_feed_authority (x : Env) (s : State) (e : Entry) (res : Nat)
    (hchange : e.isChange = true) (hscope : scopeSkip s e = false)
    (hcontent : contentSkip e = false) (hslash : slashSkip e = false)
    (hfind : s.m_res.FindByHref e.selfHref = some res) :
    FromRemote x s e = { s with m_res := s.m_res.Update res e DateTime.zero } ∧
      (FromRemote x s e).m_unresolved = s.m_unresolved := by
  have hp : parentSkip e = false := by simp [parentSkip, hchange]
  have h : FromRemote x s e = { s with m_res := s.m_res.Update res e DateTime.zero } := by
    simp [FromRemote, hscope, hcontent, hslash, hp, hchange, FromChange, hfind]
  rw [h]
  exact ⟨rfl, rfl⟩

/-- C4 at an entry older than the watermark: merged with the epoch it counts as newer. -/
theorem C4_change_feed_authority_witness :
    (FromRemote Example.env Example.s1 Example.changeDoc =
        { Example.s1 with
          m_res := Example.s1.m_res.Update 1 Example.changeDoc DateTime.zero } ∧
      (FromRemote Example.env Example.s1 Example.changeDoc).m_unresolved =
        Example.s1.m_unresolved) ∧
    ((FromRemote Example.env Example.s1 Example.changeDoc).m_res.node 1).remoteNewer = true ∧
    ((Example.s1.m_res.Update 1 Example.changeDoc Example.s1.m_last_sync).node 1).remoteNewer
      = false :=
  ⟨C4_change_feed_authority Example.env Example.s1 Example.changeDoc 1 rfl (by decide)
    (by decide) (by decide) (by decide), by decide, by decide⟩

/-! ### C5: watermark advance -/

/-- C5. Watermark advance rule: after `Sync` the watermark is the current time when the
collaborator gave back the watermark it was handed, and the collaborator's watermark
otherwise. -/
theorem C5_watermark_advance (sync : ResourceTree → DateTime → ResourceTree × DateTime)
    (now : DateTime) (s : State) :
    (Sync sync now s).m_last_sync =
      if (sync s.m_res s.m_last_sync).2 = s.m_last_sync then now
      else (sync s.m_res s.m_last_sync).2 := by
  unfold Sync
  by_cases h : (sync s.m_res s.m_last_sync).2 = s.m_last_sync <;> simp [h]

/-! ### C6: persistence round-trip -/

/-- Within the 32-bit ranges of the two conversions of `Write`, `Read` of the written
record gives back the watermark and the change stamp. -/
theorem Read_Write_in_range (s s' : State)
    (hlo : -2147483648 ≤ s.m_last_sync.sec) (hhi : s.m_last_sync.sec < 2147483648)
    (hn0 : 0 ≤ s.m_last_sync.nsec) (hn1 : s.m_last_sync.nsec < 4294967296) :
    (Read (some (Write s)) s').m_last_sync = s.m_last_sync ∧
      (Read (some (Write s)) s').m_cstamp = s.m_cstamp := by
  have h1 : toInt32 s.m_last_sync.sec = s.m_last_sync.sec := by
    unfold toInt32
    omega
  have h2 : toUInt32 s.m_last_sync.nsec = s.m_last_sync.nsec := by
    unfold toUInt32
    omega
  simp [Read, Write, h1, h2]

/-- C6. Persistence round-trip, at a watermark of 2^31 seconds: `Write` narrows the
seconds to 32 bits, so `Read` of the written record gives back -2^31 seconds; the
specification's own example (1700000000 s, 500 ns, stamp 42) is reproduced. -/
theorem C6_round_trip_narrows_seconds :
    (Read (some (Write Example.sLate)) Example.s0).m_last_sync = ⟨-2147483648, 500⟩ ∧
    (Read (some (Write Example.sLate)) Example.s0).m_last_sync ≠ Example.sLate.m_last_sync ∧
    (Read (some (Write Example.sStamp)) Example.s0).m_last_sync = ⟨1700000000, 500⟩ ∧
    (Read (some (Write Example.sStamp)) Example.s0).m_cstamp = 42 := by
  refine ⟨by decide, by decide, by decide, by decide⟩

/-! ### C7: name-safety filter -/

/-- C7. Name-safety filter, at a folder entry named `a/b` with an empty on-disk name:
the filter looks at the on-disk name, the entry passes, and a Resource named `a/b` is
created under the root and registered in the index. -/
theorem C7_slash_in_name_attached :
    Example.slashFolder.name.data.contains '/' = true ∧
    slashSkip Example.slashFolder = false ∧
    (FromRemote Example.env Example.s0 Example.slashFolder).m_res.FindChild 0 "a/b" = some 1 ∧
    ((FromRemote Example.env Example.s0 Example.slashFolder).m_res.node 1).name = "a/b" ∧
    (FromRemote Example.env Example.s0 Example.slashFolder).m_res.FindByHref "f" = some 1 ∧
    Example.s0.m_res.nodes.length = 1 := by
  refine ⟨by decide, by decide, by decide, by decide, by decide, by decide⟩

/-! ### C8: ignore symmetry -/

/-- C8 as stated fails: a broken symbolic link named `gone` is skipped by the local walk
although its path is not ignored, while `Update` on a remote entry of that name and
place creates a Resource. -/
theorem C8_broken_link_asymmetry :
    IsIgnore Example.env "gone" = false ∧
    walk Example.env 0 Example.goneDir Example.s0 = Example.s0 ∧
    Example.s0.m_res.FindByHref Example.goneEntry.selfHref = none ∧
    Example.s0.m_res.FindByHref Example.goneEntry.ParentHref = some 0 ∧
    (Update Example.env Example.s0 Example.goneEntry).1 = true ∧
    (Update Example.env Example.s0 Example.goneEntry).2.m_res.FindChild 0 "gone" = some 1 ∧
    Example.s0.m_res.FindChild 0 "gone" = none := by
  refine ⟨by decide, by decide, by decide, by decide, by decide, by decide, by decide⟩

/-- C8, amended. Ignore symmetry: for a folder `F`, a name `n`, a directory entry named
`n` inside `F` and an ordinary entry named `n` whose parent identifier resolves to `F`
and whose own identifier is unknown, both sides apply `IsIgnore` to the same relative
path string (`n` when `F` is the root, otherwise the relative path of `F` joined with
`n`).  When it matches, the local walk skips the entry and `Update` reports it handled,
neither changing the state.  When it does not match, the local walk still skips an
entry that is not found or lies outside the restricted top-level directory, and
`Update` still creates nothing for a file entry without on-disk name; in the remaining
cases with no child named `n`, each side creates one Resource. -/
theorem C8_ignore_symmetry (x : Env) (s : State) (F : Nat) (n : String) (type : FileType)
    (mtime : DateTime) (sub : Dir) (e : Entry)
    (hself : s.m_res.FindByHref e.selfHref = none)
    (hpar : s.m_res.FindByHref e.ParentHref = some F) (hname : e.name = n) :
    (IsIgnore x (if (s.m_res.node F).IsRoot then n
        else ResourceTree.pathJoin (s.m_res.RelPath F) n) = true →
      walk x F (Dir.cons n type mtime sub Dir.nil) s = s ∧ Update x s e = (true, s)) ∧
    (IsIgnore x (if (s.m_res.node F).IsRoot then n
        else ResourceTree.pathJoin (s.m_res.RelPath F) n) = false →
      ((type = FileType.notFound ∨ (F = s.m_res.Root ∧ s.m_dir ≠ "" ∧ n ≠ s.m_dir)) →
        walk x F (Dir.cons n type mtime sub Dir.nil) s = s) ∧
      (s.m_res.FindChild F n = none → e.isDir = false → e.filename = "" →
        Update x s e = (true, s)) ∧
      (s.m_res.FindChild F n = none → type ≠ FileType.notFound →
        ¬ (F = s.m_res.Root ∧ s.m_dir ≠ "" ∧ n ≠ s.m_dir) →
        (walk x F (Dir.cons n type mtime Dir.nil Dir.nil) s).m_res.nodes.length =
          s.m_res.nodes.length + 1) ∧
      (s.m_res.FindChild F n = none → (e.isDir = true ∨ e.filename ≠ "") →
        (Update x s e).2.m_res.nodes.length = s.m_res.nodes.length + 1)) := by
  subst hname
  refine ⟨?_, ?_⟩
  · intro hign
    refine ⟨?_, ?_⟩
    · simp only [walk, hign, if_true]
    · simp only [Update, hself, hpar, hign, if_true]
  · intro hign
    refine ⟨?_, ?_, ?_, ?_⟩
    · rintro (h | ⟨h1, h2, h3⟩)
      · simp [walk, hign, h]
      · simp [walk, hign, h1, h2, h3]
    · intro hc hd hf
      simp [Update, hself, hpar, hign, hc, hd, hf]
    · intro hc ht hscope
      have hscope' : (F == s.m_res.Root && s.m_dir != "" && e.name != s.m_dir) = false := by
        simp only [Bool.and_eq_false_iff, beq_eq_false_iff_ne, bne_eq_false_iff_eq, ne_eq]
        by_cases h1 : F = s.m_res.Root
        · by_cases h2 : s.m_dir = ""
          · exact Or.inl (Or.inr h2)
          · by_cases h3 : e.name = s.m_dir
            · exact Or.inr h3
            · exact absurd ⟨h1, h2, h3⟩ hscope
        · exact Or.inl (Or.inl h1)
      have ht' : (type == FileType.notFound) = false := by simpa using ht
      simp only [walk, hign, hscope', ht', hc, touch]
      by_cases hd : type = FileType.directory <;>
        simp [hd, walk, touch, length_setNode, length_AddChild, ResourceTree.Insert,
          ResourceTree.alloc]
    · intro hc hd
      have hd' : (e.isDir || decide (e.filename ≠ "")) = true := by
        rcases hd with h | h <;> simp [h]
      simp only [Update, hself, hpar, hign, hc, hd', if_true, Bool.false_eq_true, if_false]
      simp [ResourceTree.Update, length_setNode, length_AddChild, ResourceTree.Insert,
        ResourceTree.alloc]

/-- C8 at the ignored path `skip` under the root. -/
theorem C8_ignore_symmetry_witness :
    walk Example.envSkip 0 (Dir.cons "skip" FileType.regular ⟨0, 0⟩ Dir.nil Dir.nil)
        Example.s0 = Example.s0 ∧
      Update Example.envSkip Example.s0 Example.skipEntry = (true, Example.s0) :=
  (C8_ignore_symmetry Example.envSkip Example.s0 0 "skip" FileType.regular ⟨0, 0⟩ Dir.nil
    Example.skipEntry (by decide) (by decide) rfl).1 (by decide)

/-! ### C9: idempotence of the local walk -/

/-- The local walk at a skipped entry. -/
theorem walk_cons_skip (x : Env) (f : Nat) (n : String) (ty : FileType) (mt : DateTime)
    (sub rest : Dir) (s : State) (h : skips x s f n ty = true) :
    walk x f (Dir.cons n ty mt sub rest) s = walk x f rest s := by
  unfold skips at h
  simp only [Bool.or_eq_true] at h
  rw [walk]
  dsimp only
  rcases h with (h | h) | h
  · simp only [h, if_true]
  · simp only [h, if_true, ite_self]
  · simp only [h, if_true, ite_self]

/-- The local walk at an entry that is not skipped. -/
theorem walk_cons_enter (x : Env) (f : Nat) (n : String) (ty : FileType) (mt : DateTime)
    (sub rest : Dir) (s : State) (h : skips x s f n ty = false) :
    walk x f (Dir.cons n ty mt sub rest) s =
      walk x f rest
        (if ty = FileType.directory then
          walk x (ensureChild s f n (ty == FileType.directory)).1 sub
            (touch (touch (ensureChild s f n (ty == FileType.directory)).2
              (ensureChild s f n (ty == FileType.directory)).1 mt)
              (ensureChild s f n (ty == FileType.directory)).1 mt)
        else touch (ensureChild s f n (ty == FileType.directory)).2
              (ensureChild s f n (ty == FileType.directory)).1 mt) := by
  unfold skips at h
  simp only [Bool.or_eq_false_iff] at h
  obtain ⟨⟨h1, h2⟩, h3⟩ := h
  rw [walk]
  simp only [h1, h2, h3, Bool.false_eq_true, if_false, ensureChild, beq_iff_eq]

/-- Erasure commutes with reading a node. -/
theorem node_eraseLocal (t : ResourceTree) (i : Nat) :
    t.eraseLocal.node i = (t.node i).eraseLocal := by
  unfold ResourceTree.eraseLocal ResourceTree.node
  simp only [List.getD_eq_getElem?_getD, List.getElem?_map]
  cases t.nodes[i]? <;> rfl

/-- Trees with the same erasure have the same number of nodes. -/
theorem length_of_erase {t t' : ResourceTree} (h : t'.eraseLocal = t.eraseLocal) :
    t'.nodes.length = t.nodes.length := by
  have := congrArg (fun u => u.nodes.length) h
  simpa [ResourceTree.eraseLocal] using this

/-- Trees with the same erasure have nodes with the same erasure. -/
theorem node_of_erase {t t' : ResourceTree} (h : t'.eraseLocal = t.eraseLocal) (i : Nat) :
    (t'.node i).eraseLocal = (t.node i).eraseLocal := by
  rw [← node_eraseLocal, ← node_eraseLocal, h]

/-- Trees with the same erasure have nodes with the same name, parent and children. -/
theorem shape_of_erase {t t' : ResourceTree} (h : t'.eraseLocal = t.eraseLocal) (i : Nat) :
    (t'.node i).name = (t.node i).name ∧ (t'.node i).parent = (t.node i).parent ∧
      (t'.node i).children = (t.node i).children := by
  have hn := node_of_erase h i
  have h1 := congrArg Resource.name hn
  have h2 := congrArg Resource.parent hn
  have h3 := congrArg Resource.children hn
  exact ⟨h1, h2, h3⟩

/-- Replacing a node by one with the same erasure keeps the erasure of the tree. -/
theorem erase_setNode (t : ResourceTree) (i : Nat) (r : Resource)
    (h : r.eraseLocal = (t.node i).eraseLocal) :
    (t.setNode i r).eraseLocal = t.eraseLocal := by
  unfold ResourceTree.setNode ResourceTree.eraseLocal
  simp only [ResourceTree.mk.injEq, and_true]
  apply List.ext_getElem?
  intro j
  simp only [List.getElem?_map, List.getElem?_set]
  by_cases hij : i = j
  · subst hij
    by_cases hlt : i < t.nodes.length
    · have hn : t.node i = t.nodes[i] := by
        simp [ResourceTree.node, List.getD_eq_getElem?_getD, List.getElem?_eq_getElem hlt]
      simp [hlt, List.getElem?_eq_getElem hlt, h, hn]
    · simp [hlt, List.getElem?_eq_none (Nat.le_of_not_lt hlt)]
  · simp [hij]

/-- Marking a node as seen locally keeps the erasure of the tree. -/
theorem erase_touch (s : State) (i : Nat) (mt : DateTime) :
    (touch s i mt).m_res.eraseLocal = s.m_res.eraseLocal :=
  erase_setNode _ _ _ rfl

/-- Marking a node as seen locally changes no more than what was observed locally. -/
theorem SameShape_touch (s : State) (i : Nat) (mt : DateTime) : SameShape s (touch s i mt) :=
  ⟨erase_touch s i mt, rfl⟩

/-- The arena invariant does not depend on what was observed locally. -/
theorem WellFormed_of_erase {t t' : ResourceTree} (h : t'.eraseLocal = t.eraseLocal)
    (hwf : t.WellFormed = true) : t'.WellFormed = true := by
  rw [WellFormed_iff] at hwf ⊢
  obtain ⟨hpos, hp, hc⟩ := hwf
  refine ⟨by rw [length_of_erase h]; exact hpos, ?_, ?_⟩
  · intro i p hip
    rw [(shape_of_erase h i).2.1] at hip
    exact hp i p hip
  · intro i c hic
    rw [(shape_of_erase h i).2.2] at hic
    rw [length_of_erase h]
    exact hc i c hic

/-- States of the same shape extend each other. -/
theorem Extends_of_SameShape {s s' : State} (h : SameShape s s') : Extends s s' := by
  refine ⟨h.2, Nat.le_of_eq (length_of_erase h.1).symm, ?_⟩
  intro i _
  obtain ⟨h1, h2, h3⟩ := shape_of_erase h.1 i
  exact ⟨h1, h2, by rw [h3]⟩

/-- Every state extends itself. -/
theorem Extends_refl (s : State) : Extends s s :=
  ⟨rfl, Nat.le_refl _, fun _ _ => ⟨rfl, rfl, List.prefix_refl _⟩⟩

/-- Extension is transitive. -/
theorem Extends_trans {s₁ s₂ s₃ : State} (h₁ : Extends s₁ s₂) (h₂ : Extends s₂ s₃) :
    Extends s₁ s₃ := by
  refine ⟨h₂.1.trans h₁.1, Nat.le_trans h₁.2.1 h₂.2.1, ?_⟩
  intro i hi
  obtain ⟨a1, a2, a3⟩ := h₁.2.2 i hi
  obtain ⟨b1, b2, b3⟩ := h₂.2.2 i (Nat.lt_of_lt_of_le hi h₁.2.1)
  exact ⟨b1.trans a1, b2.trans a2, a3.trans b3⟩

/-- Shape sameness is symmetric. -/
theorem SameShape_symm {s s' : State} (h : SameShape s s') : SameShape s' s :=
  ⟨h.1.symm, h.2.symm⟩

/-- Shape sameness is transitive. -/
theorem SameShape_trans {s₁ s₂ s₃ : State} (h₁ : SameShape s₁ s₂) (h₂ : SameShape s₂ s₃) :
    SameShape s₁ s₃ :=
  ⟨h₂.1.trans h₁.1, h₂.2.trans h₁.2⟩

/-- With parent links that point to earlier nodes, the walk to the root from a node
reads only the nodes up to it and needs no more steps than its handle. -/
theorem relPathAux_stable (t t' : ResourceTree)
    (hp : ∀ i p, (t.node i).parent = some p → p < i) :
    ∀ (fuel fuel' i : Nat), i < fuel → i < fuel' →
      (∀ j, j ≤ i → (t'.node j).name = (t.node j).name ∧
        (t'.node j).parent = (t.node j).parent) →
      ResourceTree.relPathAux t' fuel' i = ResourceTree.relPathAux t fuel i := by
  intro fuel
  induction fuel with
  | zero => intro fuel' i hi; omega
  | succ fuel ih =>
    intro fuel' i hi hi' heq
    cases fuel' with
    | zero => omega
    | succ fuel' =>
      simp only [ResourceTree.relPathAux]
      rw [(heq i (Nat.le_refl i)).2, (heq i (Nat.le_refl i)).1]
      cases hpar : (t.node i).parent with
      | none => rfl
      | some p =>
        have hlt := hp i p hpar
        simp only
        rw [ih fuel' p (by omega) (by omega) (fun j hj => heq j (by omega))]

/-- The relative path of a node is the same in every extension of a well-formed state. -/
theorem RelPath_ext {s s' : State} (hwf : s.m_res.WellFormed = true) (h : Extends s s')
    (i : Nat) (hi : i < s.m_res.nodes.length) : s'.m_res.RelPath i = s.m_res.RelPath i := by
  obtain ⟨-, hp, -⟩ := (WellFormed_iff _).1 hwf
  unfold ResourceTree.RelPath
  apply relPathAux_stable s.m_res s'.m_res hp _ _ i hi (Nat.lt_of_lt_of_le hi h.2.1)
  intro j hj
  obtain ⟨h1, h2, -⟩ := h.2.2 j (by omega)
  exact ⟨h1, h2⟩

/-- The skip decision for an entry of a folder is the same in every extension of a
well-formed state. -/
theorem skips_ext (x : Env) {s s' : State} (hwf : s.m_res.WellFormed = true)
    (h : Extends s s') (f : Nat) (hf : f < s.m_res.nodes.length) (n : String)
    (ty : FileType) : skips x s' f n ty = skips x s f n ty := by
  unfold skips
  rw [RelPath_ext hwf h f hf, h.1]
  simp only [Resource.IsRoot, (h.2.2 f hf).2.1, ResourceTree.Root]

/-- A child found by name is still found in every extension of a well-formed state. -/
theorem FindChild_ext {s s' : State} (hwf : s.m_res.WellFormed = true) (h : Extends s s')
    (f : Nat) (hf : f < s.m_res.nodes.length) (n : String) (c : Nat)
    (hc : s.m_res.FindChild f n = some c) : s'.m_res.FindChild f n = some c := by
  obtain ⟨-, -, hch⟩ := (WellFormed_iff _).1 hwf
  obtain ⟨l, hl⟩ := (h.2.2 f hf).2.2
  unfold ResourceTree.FindChild at hc ⊢
  rw [← hl, List.find?_append]
  have hcongr : (s.m_res.node f).children.find? (fun k => (s'.m_res.node k).name == n) =
      (s.m_res.node f).children.find? (fun k => (s.m_res.node k).name == n) := by
    apply find?_congr_mem
    intro k hk
    simp only [(h.2.2 k (hch f k hk).2).1]
  rw [hcongr, hc]
  rfl

/-- A listing mirrored below a folder stays mirrored in every extension of a well-formed
state. -/
theorem Covered_ext (x : Env) {s s' : State} (hwf : s.m_res.WellFormed = true)
    (h : Extends s s') (d : Dir) :
    ∀ (f : Nat), f < s.m_res.nodes.length → Covered x f d s → Covered x f d s' := by
  obtain ⟨-, -, hch⟩ := (WellFormed_iff _).1 hwf
  induction d with
  | nil => intro f _ _; trivial
  | cons n ty mt sub rest ihsub ihrest =>
    intro f hf hcov
    unfold Covered at hcov ⊢
    refine ⟨?_, ihrest f hf hcov.2⟩
    rcases hcov.1 with hskip | ⟨c, hc, hsubcov⟩
    · exact Or.inl (by rw [skips_ext x hwf h f hf]; exact hskip)
    · refine Or.inr ⟨c, FindChild_ext hwf h f hf n c hc, ?_⟩
      intro hty
      exact ihsub c (hch f c (FindChild_mem _ _ _ _ hc)).2 (hsubcov hty)

/-- The tree that the local walk builds for a new child of a folder. -/
theorem created_spec (t : ResourceTree) (f : Nat) (n : String) (k : Bool)
    (hf : f < t.nodes.length) :
    (((t.alloc n k).2.AddChild f (t.alloc n k).1).Insert (t.alloc n k).1).nodes.length =
        t.nodes.length + 1 ∧
    ∀ j,
      ((((t.alloc n k).2.AddChild f (t.alloc n k).1).Insert (t.alloc n k).1).node j).name =
          (if j = t.nodes.length then n else (t.node j).name) ∧
      ((((t.alloc n k).2.AddChild f (t.alloc n k).1).Insert (t.alloc n k).1).node j).parent =
          (if j = t.nodes.length then some f else (t.node j).parent) ∧
      ((((t.alloc n k).2.AddChild f (t.alloc n k).1).Insert (t.alloc n k).1).node j).children =
          (if j = f then (t.node j).children ++ [t.nodes.length]
           else if j = t.nodes.length then [] else (t.node j).children) := by
  have hlen : (t.alloc n k).2.nodes.length = t.nodes.length + 1 := by
    simp [ResourceTree.alloc]
  have h1 : (t.alloc n k).1 = t.nodes.length := rfl
  refine ⟨?_, ?_⟩
  · simp only [ResourceTree.Insert, length_AddChild, hlen]
  · intro j
    simp only [node_Insert, name_AddChild, parent_AddChild, children_AddChild, node_alloc,
      hlen, h1]
    refine ⟨?_, ?_, ?_⟩
    · split_ifs <;> rfl
    · by_cases hj : j = t.nodes.length
      · simp [hj, Resource.new]
      · simp [hj]
    · by_cases hjf : j = f
      · subst hjf
        have hne : j ≠ t.nodes.length := by omega
        have hf' : j < t.nodes.length + 1 := by omega
        simp [hne, hf']
      · by_cases hj : j = t.nodes.length
        · have hne : ¬ (t.nodes.length = f) := by omega
          simp [hj, hne, Resource.new]
        · simp [hjf, hj]

/-- In a well-formed state the child that `ensureChild` gives is found by its name under
the folder, in a well-formed state that extends the first. -/
theorem ensureChild_spec (s : State) (f : Nat) (n : String) (k : Bool)
    (hwf : s.m_res.WellFormed = true) (hf : f < s.m_res.nodes.length) :
    (ensureChild s f n k).2.m_res.WellFormed = true ∧
    Extends s (ensureChild s f n k).2 ∧
    (ensureChild s f n k).2.m_res.FindChild f n = some (ensureChild s f n k).1 ∧
    (ensureChild s f n k).1 < (ensureChild s f n k).2.m_res.nodes.length := by
  obtain ⟨hpos, hp, hch⟩ := (WellFormed_iff _).1 hwf
  unfold ensureChild
  cases hfc : s.m_res.FindChild f n with
  | some c =>
    exact ⟨hwf, Extends_refl s, hfc, (hch f c (FindChild_mem _ _ _ _ hfc)).2⟩
  | none =>
    obtain ⟨hlen, hnode⟩ := created_spec s.m_res f n k hf
    dsimp only
    refine ⟨?_, ?_, ?_, ?_⟩
    · rw [WellFormed_iff]
      refine ⟨by rw [hlen]; omega, ?_, ?_⟩
      · intro i p hip
        rw [(hnode i).2.1] at hip
        by_cases hi : i = s.m_res.nodes.length
        · simp only [hi, if_true, Option.some.injEq] at hip
          omega
        · simp only [hi, if_false] at hip
          exact hp i p hip
      · intro i c hic
        rw [(hnode i).2.2] at hic
        rw [hlen]
        by_cases hif : i = f
        · simp only [hif, if_true, List.mem_append, List.mem_singleton] at hic
          rcases hic with hic | hic
          · have := hch f c hic
            omega
          · omega
        · by_cases hi : i = s.m_res.nodes.length
          · rw [if_neg hif, if_pos hi] at hic
            exact absurd hic (List.not_mem_nil _)
          · simp only [hif, hi, if_false] at hic
            have := hch i c hic
            omega
    · refine ⟨rfl, by rw [hlen]; omega, ?_⟩
      intro i hi
      have hne : i ≠ s.m_res.nodes.length := by omega
      refine ⟨by rw [(hnode i).1]; simp [hne], by rw [(hnode i).2.1]; simp [hne], ?_⟩
      rw [(hnode i).2.2]
      by_cases hif : i = f
      · simp [hif]
      · simp [hif, hne]
    · unfold ResourceTree.FindChild at hfc ⊢
      rw [(hnode f).2.2]
      simp only [if_true, List.find?_append]
      have hcongr : (s.m_res.node f).children.find?
          (fun c => ((((s.m_res.alloc n k).2.AddChild f (s.m_res.alloc n k).1).Insert
            (s.m_res.alloc n k).1).node c).name == n) =
          (s.m_res.node f).children.find? (fun c => (s.m_res.node c).name == n) := by
        apply find?_congr_mem
        intro c hc
        have hlt := (hch f c hc).2
        have hne : c ≠ s.m_res.nodes.length := by omega
        rw [(hnode c).1]
        simp [hne]
      rw [hcongr, hfc]
      simp only [Option.or, List.find?]
      rw [(hnode _).1]
      simp [ResourceTree.alloc]
    · rw [hlen]
      exact Nat.lt_succ_self _

/-- The local walk below a folder of a well-formed state ends in a well-formed state
that extends the first and mirrors the listing. -/
theorem walk_covers (x : Env) (d : Dir) :
    ∀ (f : Nat) (s : State), s.m_res.WellFormed = true → f < s.m_res.nodes.length →
      (walk x f d s).m_res.WellFormed = true ∧ Extends s (walk x f d s) ∧
        Covered x f d (walk x f d s) := by
  induction d with
  | nil =>
    intro f s hwf _
    exact ⟨hwf, Extends_refl s, trivial⟩
  | cons n ty mt sub rest ihsub ihrest =>
    intro f s hwf hf
    by_cases hsk : skips x s f n ty = true
    · rw [walk_cons_skip x f n ty mt sub rest s hsk]
      obtain ⟨w, e, c⟩ := ihrest f s hwf hf
      refine ⟨w, e, ?_⟩
      unfold Covered
      exact ⟨Or.inl (by rw [skips_ext x hwf e f hf]; exact hsk), c⟩
    · have hsk' : skips x s f n ty = false := by simpa using hsk
      rw [walk_cons_enter x f n ty mt sub rest s hsk']
      obtain ⟨rwf, rext, rfind, rlt⟩ :=
        ensureChild_spec s f n (ty == FileType.directory) hwf hf
      generalize ensureChild s f n (ty == FileType.directory) = r at rwf rext rfind rlt ⊢
      have hf1 : f < r.2.m_res.nodes.length := Nat.lt_of_lt_of_le hf rext.2.1
      have t1 := SameShape_touch r.2 r.1 mt
      have t1wf := WellFormed_of_erase t1.1 rwf
      have t1len := length_of_erase t1.1
      by_cases hty : ty = FileType.directory
      · rw [if_pos hty]
        have t2 := SameShape_touch (touch r.2 r.1 mt) r.1 mt
        have t2wf := WellFormed_of_erase t2.1 t1wf
        have t2len := length_of_erase t2.1
        obtain ⟨w3, e3, c3⟩ := ihsub r.1 (touch (touch r.2 r.1 mt) r.1 mt) t2wf
          (by rw [t2len, t1len]; exact rlt)
        have e03 : Extends r.2 (walk x r.1 sub (touch (touch r.2 r.1 mt) r.1 mt)) :=
          Extends_trans (Extends_of_SameShape (SameShape_trans t1 t2)) e3
        have hf3 : f < (walk x r.1 sub (touch (touch r.2 r.1 mt) r.1 mt)).m_res.nodes.length :=
          Nat.lt_of_lt_of_le hf1 e03.2.1
        have hr3 : r.1 < (walk x r.1 sub (touch (touch r.2 r.1 mt) r.1 mt)).m_res.nodes.length :=
          Nat.lt_of_lt_of_le rlt e03.2.1
        obtain ⟨w4, e4, c4⟩ := ihrest f _ w3 hf3
        refine ⟨w4, Extends_trans rext (Extends_trans e03 e4), ?_⟩
        unfold Covered
        refine ⟨Or.inr ⟨r.1, ?_, ?_⟩, c4⟩
        · exact FindChild_ext rwf (Extends_trans e03 e4) f hf1 n r.1 rfind
        · intro _
          exact Covered_ext x w3 e4 sub r.1 hr3 c3
      · rw [if_neg hty]
        have hf2 : f < (touch r.2 r.1 mt).m_res.nodes.length := by rw [t1len]; exact hf1
        obtain ⟨w4, e4, c4⟩ := ihrest f _ t1wf hf2
        have e04 : Extends r.2 (walk x f rest (touch r.2 r.1 mt)) :=
          Extends_trans (Extends_of_SameShape t1) e4
        refine ⟨w4, Extends_trans rext e04, ?_⟩
        unfold Covered
        refine ⟨Or.inr ⟨r.1, ?_, ?_⟩, c4⟩
        · exact FindChild_ext rwf e04 f hf1 n r.1 rfind
        · intro h
          exact absurd h hty

/-- The local walk over a listing that the tree already mirrors changes no more than
what was observed locally. -/
theorem walk_of_Covered (x : Env) (d : Dir) :
    ∀ (f : Nat) (s : State), s.m_res.WellFormed = true → f < s.m_res.nodes.length →
      Covered x f d s → SameShape s (walk x f d s) := by
  induction d with
  | nil =>
    intro f s _ _ _
    exact ⟨rfl, rfl⟩
  | cons n ty mt sub rest ihsub ihrest =>
    intro f s hwf hf hcov
    obtain ⟨-, -, hch⟩ := (WellFormed_iff _).1 hwf
    unfold Covered at hcov
    by_cases hsk : skips x s f n ty = true
    · rw [walk_cons_skip x f n ty mt sub rest s hsk]
      exact ihrest f s hwf hf hcov.2
    · have hsk' : skips x s f n ty = false := by simpa using hsk
      rcases hcov.1 with h | ⟨c, hfc, hsub⟩
      · exact absurd h hsk
      · have hens : ensureChild s f n (ty == FileType.directory) = (c, s) := by
          unfold ensureChild
          rw [hfc]
        have hc : c < s.m_res.nodes.length := (hch f c (FindChild_mem _ _ _ _ hfc)).2
        rw [walk_cons_enter x f n ty mt sub rest s hsk', hens]
        have t1 := SameShape_touch s c mt
        have t1wf := WellFormed_of_erase t1.1 hwf
        have t1len := length_of_erase t1.1
        by_cases hty : ty = FileType.directory
        · rw [if_pos hty]
          have t2 := SameShape_trans t1 (SameShape_touch (touch s c mt) c mt)
          have t2wf := WellFormed_of_erase t2.1 hwf
          have t2len := length_of_erase t2.1
          have c2 : Covered x c sub (touch (touch s c mt) c mt) :=
            Covered_ext x hwf (Extends_of_SameShape t2) sub c hc (hsub hty)
          have t3 := SameShape_trans t2 (ihsub c _ t2wf (by rw [t2len]; exact hc) c2)
          have t3wf := WellFormed_of_erase t3.1 hwf
          have t3len := length_of_erase t3.1
          have c3 : Covered x f rest (walk x c sub (touch (touch s c mt) c mt)) :=
            Covered_ext x hwf (Extends_of_SameShape t3) rest f hf hcov.2
          exact SameShape_trans t3 (ihrest f _ t3wf (by rw [t3len]; exact hf) c3)
        · rw [if_neg hty]
          have c2 : Covered x f rest (touch s c mt) :=
            Covered_ext x hwf (Extends_of_SameShape t1) rest f hf hcov.2
          exact SameShape_trans t1 (ihrest f _ t1wf (by rw [t1len]; exact hf) c2)

/-- C9. FromLocal idempotence: in a well-formed State, a second `FromLocal` over the
unchanged directory creates no Resource and registers nothing: the number of nodes and
the identifier index are those after the first run, and every node has the name, kind,
parent link, children and remote identifier it had after the first run; the two trees
differ at most in what was observed locally. -/
theorem C9_FromLocal_idempotent (x : Env) (mtime : DateTime) (p : Dir) (s : State)
    (hwf : s.m_res.WellFormed = true) :
    (FromLocal x mtime p (FromLocal x mtime p s)).m_res.nodes.length =
        (FromLocal x mtime p s).m_res.nodes.length ∧
    (FromLocal x mtime p (FromLocal x mtime p s)).m_res.index =
        (FromLocal x mtime p s).m_res.index ∧
    (∀ i,
      ((FromLocal x mtime p (FromLocal x mtime p s)).m_res.node i).name =
          ((FromLocal x mtime p s).m_res.node i).name ∧
      ((FromLocal x mtime p (FromLocal x mtime p s)).m_res.node i).isFolder =
          ((FromLocal x mtime p s).m_res.node i).isFolder ∧
      ((FromLocal x mtime p (FromLocal x mtime p s)).m_res.node i).parent =
          ((FromLocal x mtime p s).m_res.node i).parent ∧
      ((FromLocal x mtime p (FromLocal x mtime p s)).m_res.node i).children =
          ((FromLocal x mtime p s).m_res.node i).children ∧
      ((FromLocal x mtime p (FromLocal x mtime p s)).m_res.node i).href =
          ((FromLocal x mtime p s).m_res.node i).href) ∧
    (FromLocal x mtime p (FromLocal x mtime p s)).m_res.eraseLocal =
        (FromLocal x mtime p s).m_res.eraseLocal := by
  obtain ⟨hpos, -, -⟩ := (WellFormed_iff _).1 hwf
  have t0 := SameShape_touch s 0 mtime
  have t0wf := WellFormed_of_erase t0.1 hwf
  have t0len := length_of_erase t0.1
  obtain ⟨w1, e1, c1⟩ := walk_covers x p 0 (touch s 0 mtime) t0wf (by rw [t0len]; exact hpos)
  have h1 : FromLocal x mtime p s = walk x 0 p (touch s 0 mtime) := rfl
  rw [← h1] at w1 e1 c1
  generalize FromLocal x mtime p s = s1 at w1 e1 c1 ⊢
  obtain ⟨hpos1, -, -⟩ := (WellFormed_iff _).1 w1
  have t1 := SameShape_touch s1 0 mtime
  have t1wf := WellFormed_of_erase t1.1 w1
  have t1len := length_of_erase t1.1
  have c2 : Covered x 0 p (touch s1 0 mtime) :=
    Covered_ext x w1 (Extends_of_SameShape t1) p 0 hpos1 c1
  have h2 : FromLocal x mtime p s1 = walk x 0 p (touch s1 0 mtime) := rfl
  have hsame : SameShape s1 (FromLocal x mtime p s1) := by
    rw [h2]
    exact SameShape_trans t1
      (walk_of_Covered x p 0 _ t1wf (by rw [t1len]; exact hpos1) c2)
  refine ⟨length_of_erase hsame.1, ?_, ?_, hsame.1⟩
  · have hidx := congrArg ResourceTree.index hsame.1
    exact hidx
  · intro i
    have hn := node_of_erase hsame.1 i
    have a1 := congrArg Resource.name hn
    have a2 := congrArg Resource.isFolder hn
    have a3 := congrArg Resource.parent hn
    have a4 := congrArg Resource.children hn
    have a5 := congrArg Resource.href hn
    exact ⟨a1, a2, a3, a4, a5⟩

/-- C9 at a directory with a file and a folder that holds a file, walked into a tree
that holds the root. -/
theorem C9_FromLocal_idempotent_witness :
    Example.s0.m_res.WellFormed = true ∧
    (FromLocal Example.env ⟨100, 0⟩ Example.localDir Example.s0).m_res.nodes.length = 4 ∧
    (FromLocal Example.env ⟨100, 0⟩ Example.localDir
        (FromLocal Example.env ⟨100, 0⟩ Example.localDir Example.s0)).m_res.nodes.length =
      (FromLocal Example.env ⟨100, 0⟩ Example.localDir Example.s0).m_res.nodes.length :=
  ⟨by decide, by decide,
    (C9_FromLocal_idempotent Example.env ⟨100, 0⟩ Example.localDir Example.s0 (by decide)).1⟩

/-! ### C10: deferral -/

/-- C10. Deferral, at an ordinary entry whose own identifier is in the index: `Update`
merges it and ends without a `return`; read as `false`, the entry is appended to the
unresolved queue although it was merged. -/
theorem C10_known_entry_queued :
    Example.s1.m_res.FindByHref Example.knownDoc.selfHref = some 1 ∧
    (Update Example.envFalse Example.s1 Example.knownDoc).2.m_res =
      Example.s1.m_res.Update 1 Example.knownDoc Example.s1.m_last_sync ∧
    (FromRemote Example.envFalse Example.s1 Example.knownDoc).m_unresolved =
      [Example.knownDoc] ∧
    Example.s1.m_unresolved = [] := by
  refine ⟨by decide, by decide, by decide, by decide⟩

/-! ### C11: the assertions of merge and resolution -/

/-- `FromRemote` reaches `Update` only with an entry that is no change-feed entry, and
`FromChange` only with one that is: the assertions of lines 170 and 180 hold. -/
theorem FromRemoteAsserts_eq (s : State) (e : Entry) :
    FromRemoteAsserts s e =
      (scopeSkip s e || contentSkip e || slashSkip e || parentSkip e || e.isChange ||
        (e.ParentHref != "" &&
          (match s.m_res.FindByHref e.selfHref with
            | some _ => true
            | none =>
              match s.m_res.FindByHref e.ParentHref with
              | some parent => (s.m_res.node parent).isFolder
              | none => true))) := by
  unfold FromRemoteAsserts FromChangeAsserts UpdateAsserts
  cases scopeSkip s e <;> cases contentSkip e <;> cases slashSkip e <;>
    cases parentSkip e <;> cases e.isChange <;> simp

/-- `ResolveEntry` calls `TryResolveEntry` on a non-empty queue only: with an empty
queue no assertion is reached. -/
theorem ResolveEntryAsserts_empty (x : Env) (s : State) (hq : s.m_unresolved = []) :
    ResolveEntryAsserts x s = true := by
  unfold ResolveEntryAsserts resolveLoopAsserts
  simp [hq]

/-- C11. No data-shape failure, at a state reached by merging the file entry `d`: for
an entry that names `d` as its parent, `FromRemote` reaches `Update`, the parent
identifier is found, and the Resource found is a file, so the assertion of line 195
fails; queued before `d` is known, the same entry fails it in `ResolveEntry`; and an
entry whose one parent identifier is empty fails the assertion of line 181. -/
theorem C11_parent_assertion_fails :
    (FromRemote Example.env Example.s0 Example.fileDoc).m_res.FindByHref "d" = some 1 ∧
    ((FromRemote Example.env Example.s0 Example.fileDoc).m_res.node 1).isFolder = false ∧
    FromRemoteAsserts Example.s0 Example.fileDoc = true ∧
    FromRemoteAsserts (FromRemote Example.env Example.s0 Example.fileDoc)
      Example.underFile = false ∧
    FromRemoteAsserts Example.s0 Example.underFile = true ∧
    FromRemoteAsserts (FromRemote Example.env Example.s0 Example.underFile)
      Example.fileDoc = true ∧
    ResolveEntryAsserts Example.env
      (FromRemote Example.env (FromRemote Example.env Example.s0 Example.underFile)
        Example.fileDoc) = false ∧
    FromRemoteAsserts Example.s0 Example.emptyParent = false := by
  refine ⟨by decide, by decide, by decide, by decide, by decide, by decide, by decide,
    by decide⟩

/-! ### The merge of a new child -/

/-- A lookup that succeeds gives a registered node that carries the identifier. -/
theorem FindByHref_some (t : ResourceTree) (h : String) (i : Nat)
    (hf : t.FindByHref h = some i) : i ∈ t.index ∧ (t.node i).href = h := by
  unfold ResourceTree.FindByHref at hf
  refine ⟨List.mem_of_find?_eq_some hf, ?_⟩
  have := List.find?_some hf
  simpa using this

/-- The index invariant, spelled out. -/
theorem IndexInRange_iff (t : ResourceTree) :
    t.IndexInRange = true ↔ ∀ i ∈ t.index, i < t.nodes.length := by
  simp [ResourceTree.IndexInRange]

/-- The number of nodes after the merge of a new child. -/
theorem length_attach (t : ResourceTree) (p : Nat) (e : Entry) (w : DateTime) :
    (t.attach p e w).nodes.length = t.nodes.length + 1 := by
  simp [ResourceTree.attach, length_Update, ResourceTree.Insert, length_AddChild,
    ResourceTree.alloc]

/-- The index after the merge of a new child. -/
theorem index_attach (t : ResourceTree) (p : Nat) (e : Entry) (w : DateTime) :
    (t.attach p e w).index = t.index ++ [t.nodes.length] := by
  simp [ResourceTree.attach, ResourceTree.Update, ResourceTree.setNode, ResourceTree.Insert,
    ResourceTree.AddChild, ResourceTree.alloc]

/-- The identifiers after the merge of a new child. -/
theorem href_attach (t : ResourceTree) (p : Nat) (e : Entry) (w : DateTime) (j : Nat) :
    ((t.attach p e w).node j).href =
      if j = t.nodes.length then e.selfHref else (t.node j).href :=
  href_created t p e w j

/-- The names, parent links and children after the merge of a new child under a parent
of the arena. -/
theorem shape_attach (t : ResourceTree) (p : Nat) (e : Entry) (w : DateTime)
    (hp : p < t.nodes.length) (j : Nat) :
    ((t.attach p e w).node j).name =
        (if j = t.nodes.length then e.name else (t.node j).name) ∧
    ((t.attach p e w).node j).parent =
        (if j = t.nodes.length then some p else (t.node j).parent) ∧
    ((t.attach p e w).node j).children =
        (if j = p then (t.node j).children ++ [t.nodes.length]
         else if j = t.nodes.length then [] else (t.node j).children) := by
  obtain ⟨-, h⟩ := created_spec t p e.name e.isDir hp
  unfold ResourceTree.attach
  rw [name_Update, parent_Update, children_Update]
  exact h j

/-- The merge of a new child under a parent of the arena that has no child of that
name keeps the arena invariant. -/
theorem WellFormed_attach (t : ResourceTree) (p : Nat) (e : Entry) (w : DateTime)
    (hwf : t.WellFormed = true) (hp : p < t.nodes.length) :
    (t.attach p e w).WellFormed = true := by
  obtain ⟨hpos, hpar, hch⟩ := (WellFormed_iff _).1 hwf
  rw [WellFormed_iff]
  refine ⟨by rw [length_attach]; omega, ?_, ?_⟩
  · intro i q hiq
    rw [(shape_attach t p e w hp i).2.1] at hiq
    by_cases hi : i = t.nodes.length
    · simp only [hi, if_true, Option.some.injEq] at hiq
      omega
    · simp only [hi, if_false] at hiq
      exact hpar i q hiq
  · intro i c hic
    rw [(shape_attach t p e w hp i).2.2] at hic
    rw [length_attach]
    by_cases hif : i = p
    · simp only [hif, if_true, List.mem_append, List.mem_singleton] at hic
      rcases hic with hic | hic
      · have := hch p c hic
        omega
      · omega
    · by_cases hi : i = t.nodes.length
      · rw [if_neg hif, if_pos hi] at hic
        exact absurd hic (List.not_mem_nil _)
      · simp only [hif, hi, if_false] at hic
        have := hch i c hic
        omega

/-- The lookups after the merge of a new child: an identifier found before is found at
the same node, and the identifier of the entry is found at the new node when it was
not found before. -/
theorem FindByHref_attach (t : ResourceTree) (p : Nat) (e : Entry) (w : DateTime)
    (hidx : t.IndexInRange = true) (h : String) :
    (t.attach p e w).FindByHref h =
      (t.FindByHref h).or (if e.selfHref = h then some t.nodes.length else none) := by
  rw [IndexInRange_iff] at hidx
  unfold ResourceTree.FindByHref
  rw [index_attach, List.find?_append]
  have hcongr : t.index.find? (fun i => ((t.attach p e w).node i).href == h) =
      t.index.find? (fun i => (t.node i).href == h) := by
    apply find?_congr_mem
    intro i hi
    have hne : i ≠ t.nodes.length := Nat.ne_of_lt (hidx i hi)
    rw [href_attach]
    simp [hne]
  rw [hcongr]
  congr 1
  by_cases he : e.selfHref = h
  · have hb : (e.selfHref == h) = true := by simpa using he
    simp only [List.find?, href_attach, if_true, hb, if_pos he]
  · have hb : (e.selfHref == h) = false := by simpa using he
    simp only [List.find?, href_attach, if_true, hb, if_neg he]

/-- The merge of a new child keeps the index invariant. -/
theorem IndexInRange_attach (t : ResourceTree) (p : Nat) (e : Entry) (w : DateTime)
    (hidx : t.IndexInRange = true) : (t.attach p e w).IndexInRange = true := by
  rw [IndexInRange_iff] at hidx ⊢
  intro i hi
  rw [index_attach, List.mem_append, List.mem_singleton] at hi
  rw [length_attach]
  rcases hi with hi | hi
  · exact Nat.lt_succ_of_lt (hidx i hi)
  · omega

/-- `Update` on an entry that is itself unknown and whose parent is found. -/
theorem Update_known_parent (x : Env) (s : State) (e : Entry) (p : Nat)
    (hself : s.m_res.FindByHref e.selfHref = none)
    (hpar : s.m_res.FindByHref e.ParentHref = some p) :
    Update x s e =
      if IsIgnore x (if (s.m_res.node p).IsRoot then e.name
          else ResourceTree.pathJoin (s.m_res.RelPath p) e.name) = true then (true, s)
      else
        match s.m_res.FindChild p e.name with
        | some child => (true, { s with m_res := s.m_res.Update child e s.m_last_sync })
        | none =>
          if e.isDir = true ∨ e.filename ≠ "" then
            (true, { s with m_res := s.m_res.attach p e s.m_last_sync })
          else (true, s) := by
  unfold Update
  simp only [hself, hpar]
  by_cases hign : IsIgnore x (if (s.m_res.node p).IsRoot then e.name
      else ResourceTree.pathJoin (s.m_res.RelPath p) e.name) = true
  · simp only [hign, if_true]
  · simp only [hign, if_false, Bool.false_eq_true]
    cases s.m_res.FindChild p e.name with
    | some c => rfl
    | none =>
      by_cases hmat : e.isDir = true ∨ e.filename ≠ ""
      · have hmat' : (e.isDir || decide (e.filename ≠ "")) = true := by
          rcases hmat with h | h <;> simp [h]
        simp only [hmat', hmat, if_true]
        rfl
      · have hmat' : (e.isDir || decide (e.filename ≠ "")) = false := by
          simp only [not_or, Bool.not_eq_true, ne_eq, not_not] at hmat
          simp [hmat.1, hmat.2]
        simp only [hmat', hmat, if_false, Bool.false_eq_true]

/-- `Update` on an entry that is itself unknown, whose parent is found, whose path is
not ignored, that finds no child of its name and is a folder or has an on-disk name:
the new child is merged and `true` reported. -/
theorem Update_attach (x : Env) (s : State) (e : Entry) (p : Nat)
    (hself : s.m_res.FindByHref e.selfHref = none)
    (hpar : s.m_res.FindByHref e.ParentHref = some p)
    (hign : IsIgnore x (if (s.m_res.node p).IsRoot then e.name
      else ResourceTree.pathJoin (s.m_res.RelPath p) e.name) = false)
    (hfc : s.m_res.FindChild p e.name = none)
    (hmat : e.isDir = true ∨ e.filename ≠ "") :
    Update x s e = (true, { s with m_res := s.m_res.attach p e s.m_last_sync }) := by
  rw [Update_known_parent x s e p hself hpar, hign, hfc]
  simp only [Bool.false_eq_true, if_false, hmat, if_true]

/-- A scan keeps what every call of `Update` keeps.  `P` relates the tree to the entries
still queued; it is to hold again after every `Update` that reports `true`, without the
entry tried, and to say that the entry tried is itself unknown to the tree.  Then `P`
holds after the scan, and a scan that removes nothing leaves the tree as it was and
found every entry unknown. -/
theorem tryLoop_inv (x : Env) (P : ResourceTree → List Entry → Prop)
    (hstep : ∀ (s : State) (kept rest : List Entry) (e : Entry),
      P s.m_res (kept ++ e :: rest) →
        s.m_res.FindByHref e.selfHref = none ∧
        ((Update x s e).1 = true → P (Update x s e).2.m_res (kept ++ rest)))
    (rest : List Entry) :
    ∀ (kept : List Entry) (s : State) (count : Nat), P s.m_res (kept ++ rest) →
      P (tryLoop x kept rest s count).2.m_res (tryLoop x kept rest s count).2.m_unresolved ∧
      ((tryLoop x kept rest s count).1 = count →
        (tryLoop x kept rest s count).2.m_res = s.m_res ∧
        ∀ e ∈ rest, s.m_res.FindByHref e.selfHref = none ∧
          s.m_res.FindByHref e.ParentHref = none) := by
  induction rest with
  | nil =>
    intro kept s count hP
    rw [List.append_nil] at hP
    refine ⟨by simpa only [tryLoop] using hP, fun _ => ⟨by simp only [tryLoop], ?_⟩⟩
    intro e he
    exact absurd he (List.not_mem_nil e)
  | cons e rest ih =>
    intro kept s count hP
    obtain ⟨hself, htrue⟩ := hstep { s with m_unresolved := kept ++ e :: rest } kept rest e hP
    unfold tryLoop
    dsimp only
    cases hu : (Update x { s with m_unresolved := kept ++ e :: rest } e).1 with
    | true =>
      simp only [if_true]
      obtain ⟨h1, -⟩ := ih kept (Update x { s with m_unresolved := kept ++ e :: rest } e).2
        (count + 1) (htrue hu)
      refine ⟨h1, ?_⟩
      intro hc
      obtain ⟨k, -, hk2, hk3⟩ := tryLoop_queue x rest kept
        (Update x { s with m_unresolved := kept ++ e :: rest } e).2 (count + 1)
      have := hk2.length_le
      omega
    | false =>
      simp only [Bool.false_eq_true, if_false]
      have hs := Update_self_unknown_false x { s with m_unresolved := kept ++ e :: rest } e
        hself hu
      have hpar : s.m_res.FindByHref e.ParentHref = none := by
        cases hp : s.m_res.FindByHref e.ParentHref with
        | none => rfl
        | some p =>
          have := Update_parent_known x { s with m_unresolved := kept ++ e :: rest } e p
            hself hp
          rw [hu] at this
          cases this
      rw [hs]
      have hP' : P ({ s with m_unresolved := kept ++ e :: rest } : State).m_res
          ((kept ++ [e]) ++ rest) := by
        rw [List.append_assoc]
        exact hP
      obtain ⟨h1, h2⟩ := ih (kept ++ [e]) { s with m_unresolved := kept ++ e :: rest } count hP'
      refine ⟨h1, ?_⟩
      intro hc
      obtain ⟨h3, h4⟩ := h2 hc
      refine ⟨h3, ?_⟩
      intro e' he'
      rcases List.mem_cons.1 he' with rfl | hm
      · exact ⟨hself, hpar⟩
      · exact h4 e' hm

/-- The resolution loop keeps what every call of `Update` keeps: with `P` as in
`tryLoop_inv`, the loop ends within as many scans as there are queued entries, keeps a
sublist of the queue, ends with `P`, and ends with every queued entry unknown to the
final tree. -/
theorem resolveLoop_inv (x : Env) (P : ResourceTree → List Entry → Prop)
    (hstep : ∀ (s : State) (kept rest : List Entry) (e : Entry),
      P s.m_res (kept ++ e :: rest) →
        s.m_res.FindByHref e.selfHref = none ∧
        ((Update x s e).1 = true → P (Update x s e).2.m_res (kept ++ rest))) :
    ∀ (fuel : Nat) (s : State), s.m_unresolved.length ≤ fuel → P s.m_res s.m_unresolved →
      ∃ n s', resolveLoop x fuel s = some (n, s') ∧ n ≤ s.m_unresolved.length ∧
        s'.m_unresolved.Sublist s.m_unresolved ∧ P s'.m_res s'.m_unresolved ∧
        (∀ e ∈ s'.m_unresolved, s'.m_res.FindByHref e.selfHref = none ∧
          s'.m_res.FindByHref e.ParentHref = none) := by
  intro fuel
  induction fuel with
  | zero =>
    intro s hs hP
    have hnil : s.m_unresolved = [] := List.length_eq_zero.1 (Nat.le_zero.1 hs)
    refine ⟨0, s, by simp [resolveLoop, hnil], Nat.zero_le _, List.Sublist.refl _, hP, ?_⟩
    intro e he
    simp [hnil] at he
  | succ fuel ih =>
    intro s hs hP
    by_cases hq : s.m_unresolved = []
    · refine ⟨0, s, by simp [resolveLoop, hq], Nat.zero_le _, List.Sublist.refl _, hP, ?_⟩
      intro e he
      simp [hq] at he
    · have hpos : 0 < s.m_unresolved.length := List.length_pos.2 hq
      obtain ⟨k, hk1, hk2, hk3⟩ := tryLoop_queue x s.m_unresolved [] s 0
      simp only [List.nil_append, Nat.zero_add] at hk1 hk3
      obtain ⟨hP1, hfix⟩ := tryLoop_inv x P hstep s.m_unresolved [] s 0 hP
      by_cases hc : (TryResolveEntry x s).1 = 0
      · refine ⟨1, (TryResolveEntry x s).2, ?_, hpos, ?_, hP1, ?_⟩
        · simp [resolveLoop, hq, hc]
        · unfold TryResolveEntry
          rw [hk1]
          exact hk2
        · intro e he
          obtain ⟨h1, h2⟩ := hfix hc
          have hk : k = s.m_unresolved := by
            apply hk2.eq_of_length
            unfold TryResolveEntry at hc
            omega
          unfold TryResolveEntry at he ⊢
          rw [h1]
          rw [hk1, hk] at he
          exact h2 e he
      · have hlen : (TryResolveEntry x s).2.m_unresolved.length ≤ fuel := by
          unfold TryResolveEntry at hc ⊢
          rw [hk1]
          omega
        obtain ⟨n, s', hr, hn, hsub, hP', hun⟩ := ih (TryResolveEntry x s).2 hlen hP1
        refine ⟨n + 1, s', ?_, ?_, ?_, hP', hun⟩
        · simp [resolveLoop, hq, hc, hr]
        · unfold TryResolveEntry at hc hn
          rw [hk1] at hn
          omega
        · refine hsub.trans ?_
          unfold TryResolveEntry
          rw [hk1]
          exact hk2

/-- With the entry itself unknown, `Update` does not reach the end of its body without
a `return`: its result is the same whatever value is read there. -/
theorem Update_env (x x' : Env) (hx : x'.regex_match = x.regex_match) (s : State)
    (e : Entry) (hself : s.m_res.FindByHref e.selfHref = none) :
    Update x' s e = Update x s e := by
  unfold Update
  simp only [hself, IsIgnore, hx]

/-- With `P` as in `tryLoop_inv`, the scan is the same whatever value is read where
`Update` ends without a `return`. -/
theorem tryLoop_env (x x' : Env) (hx : x'.regex_match = x.regex_match)
    (P : ResourceTree → List Entry → Prop)
    (hstep : ∀ (s : State) (kept rest : List Entry) (e : Entry),
      P s.m_res (kept ++ e :: rest) →
        s.m_res.FindByHref e.selfHref = none ∧
        ((Update x s e).1 = true → P (Update x s e).2.m_res (kept ++ rest)))
    (rest : List Entry) :
    ∀ (kept : List Entry) (s : State) (count : Nat), P s.m_res (kept ++ rest) →
      tryLoop x' kept rest s count = tryLoop x kept rest s count := by
  induction rest with
  | nil =>
    intro kept s count _
    simp only [tryLoop]
  | cons e rest ih =>
    intro kept s count hP
    obtain ⟨hself, htrue⟩ := hstep { s with m_unresolved := kept ++ e :: rest } kept rest e hP
    have hU := Update_env x x' hx { s with m_unresolved := kept ++ e :: rest } e hself
    unfold tryLoop
    dsimp only
    rw [hU]
    cases hu : (Update x { s with m_unresolved := kept ++ e :: rest } e).1 with
    | true =>
      simp only [if_true]
      exact ih kept _ (count + 1) (htrue hu)
    | false =>
      simp only [Bool.false_eq_true, if_false]
      have hs := Update_self_unknown_false x { s with m_unresolved := kept ++ e :: rest } e
        hself hu
      rw [hs]
      have hP' : P ({ s with m_unresolved := kept ++ e :: rest } : State).m_res
          ((kept ++ [e]) ++ rest) := by
        rw [List.append_assoc]
        exact hP
      exact ih (kept ++ [e]) _ count hP'

/-- With `P` as in `tryLoop_inv`, the resolution loop is the same whatever value is read
where `Update` ends without a `return`. -/
theorem resolveLoop_env (x x' : Env) (hx : x'.regex_match = x.regex_match)
    (P : ResourceTree → List Entry → Prop)
    (hstep : ∀ (s : State) (kept rest : List Entry) (e : Entry),
      P s.m_res (kept ++ e :: rest) →
        s.m_res.FindByHref e.selfHref = none ∧
        ((Update x s e).1 = true → P (Update x s e).2.m_res (kept ++ rest))) :
    ∀ (fuel : Nat) (s : State), P s.m_res s.m_unresolved →
      resolveLoop x' fuel s = resolveLoop x fuel s := by
  intro fuel
  induction fuel with
  | zero =>
    intro s _
    simp only [resolveLoop]
  | succ fuel ih =>
    intro s hP
    have hscan : TryResolveEntry x' s = TryResolveEntry x s :=
      tryLoop_env x x' hx P hstep s.m_unresolved [] s 0 hP
    obtain ⟨hP1, -⟩ := tryLoop_inv x P hstep s.m_unresolved [] s 0 hP
    have hnext := ih (TryResolveEntry x s).2 hP1
    unfold resolveLoop
    simp only [hscan, hnext]

/-- In a list without repeated identifiers an entry has another identifier than every
other entry of the list. -/
theorem selfHref_ne_of_nodup (kept rest : List Entry) (e e' : Entry)
    (hnd : ((kept ++ e :: rest).map Entry.selfHref).Nodup) (he' : e' ∈ kept ++ rest) :
    e'.selfHref ≠ e.selfHref := by
  rw [List.map_append, List.map_cons, List.nodup_middle, List.nodup_cons,
    ← List.map_append] at hnd
  intro heq
  exact hnd.1 (heq ▸ List.mem_map_of_mem Entry.selfHref he')

/-- A list without repeated identifiers stays so without one of its entries. -/
theorem nodup_without (kept rest : List Entry) (e : Entry)
    (hnd : ((kept ++ e :: rest).map Entry.selfHref).Nodup) :
    ((kept ++ rest).map Entry.selfHref).Nodup := by
  rw [List.map_append, List.map_cons, List.nodup_middle, List.nodup_cons,
    ← List.map_append] at hnd
  exact hnd.2

/-- Membership in a list with one entry singled out. -/
theorem mem_middle (kept rest : List Entry) (e e' : Entry) :
    e' ∈ kept ++ e :: rest ↔ e' = e ∨ e' ∈ kept ++ rest := by
  simp only [List.mem_append, List.mem_cons]
  constructor
  · rintro (h | h | h)
    · exact Or.inr (Or.inl h)
    · exact Or.inl h
    · exact Or.inr (Or.inr h)
  · rintro (h | h | h)
    · exact Or.inr (Or.inl h)
    · exact Or.inl h
    · exact Or.inr (Or.inr h)

/-- `Update` that reports `true` on an entry that is itself unknown found its parent. -/
theorem parent_known_of_true (x : Env) (s : State) (e : Entry)
    (hself : s.m_res.FindByHref e.selfHref = none) (h : (Update x s e).1 = true) :
    ∃ p, s.m_res.FindByHref e.ParentHref = some p := by
  cases hp : s.m_res.FindByHref e.ParentHref with
  | some p => exact ⟨p, rfl⟩
  | none =>
    rw [Update_unknown x s e hself hp] at h
    cases h

/-- Every call of `Update` in the resolution keeps `ResolveInv`. -/
theorem ResolveInv_step (x : Env) (s₀ s : State) (kept rest : List Entry) (e : Entry)
    (h : ResolveInv s₀ s.m_res (kept ++ e :: rest)) :
    s.m_res.FindByHref e.selfHref = none ∧
    ((Update x s e).1 = true → ResolveInv s₀ (Update x s e).2.m_res (kept ++ rest)) := by
  obtain ⟨b1, b2, b3, b4, b5⟩ := h
  have hself : s.m_res.FindByHref e.selfHref = none :=
    b2 e ((mem_middle kept rest e e).2 (Or.inl rfl))
  have he0 : e ∈ s₀.m_unresolved := b3 e ((mem_middle kept rest e e).2 (Or.inl rfl))
  refine ⟨hself, ?_⟩
  intro htrue
  obtain ⟨p, hp⟩ := parent_known_of_true x s e hself htrue
  have hreach : SpecReaches s₀.m_res s₀.m_unresolved e.ParentHref :=
    b4 e.ParentHref (by rw [hp]; rfl)
  refine ⟨nodup_without kept rest e b1, ?_, ?_, ?_, ?_⟩
  · intro e' he'
    exact Update_href_other x s e e'.selfHref
      (b2 e' ((mem_middle kept rest e e').2 (Or.inr he')))
      (selfHref_ne_of_nodup kept rest e e' b1 he')
  · intro e' he'
    exact b3 e' ((mem_middle kept rest e e').2 (Or.inr he'))
  · intro h hk
    by_cases hh : h = e.selfHref
    · rw [hh]
      exact SpecReaches.step e he0 hreach
    · apply b4 h
      cases hf : s.m_res.FindByHref h with
      | some i => rfl
      | none =>
        rw [Update_href_other x s e h hf hh] at hk
        cases hk
  · intro e' he' hnot
    by_cases hee : e' = e
    · rw [hee]
      exact hreach
    · apply b5 e' he'
      intro hmem
      rcases (mem_middle kept rest e e').1 hmem with h1 | h1
      · exact hee h1
      · exact hnot h1

/-- The merge of a new child gives no node a child of another name: a name that was
not among the children of a node is not among them afterwards, unless it is the name of
the new child under its parent. -/
theorem FindChild_attach (t : ResourceTree) (p : Nat) (e : Entry) (w : DateTime)
    (hwf : t.WellFormed = true) (hp : p < t.nodes.length) (q : Nat) (n : String)
    (hq : t.FindChild q n = none) (hn : q = p → e.name ≠ n) :
    (t.attach p e w).FindChild q n = none := by
  obtain ⟨-, -, hch⟩ := (WellFormed_iff _).1 hwf
  unfold ResourceTree.FindChild at hq ⊢
  have hold : (t.node q).children.find? (fun c => ((t.attach p e w).node c).name == n) =
      none := by
    rw [← hq]
    apply find?_congr_mem
    intro k hk
    have hne : k ≠ t.nodes.length := Nat.ne_of_lt (hch q k hk).2
    rw [(shape_attach t p e w hp k).1]
    simp [hne]
  rw [(shape_attach t p e w hp q).2.2]
  by_cases hqp : q = p
  · have hne : (e.name == n) = false := by simpa using hn hqp
    rw [if_pos hqp, List.find?_append, hold]
    simp [List.find?, (shape_attach t p e w hp t.nodes.length).1, hne]
  · by_cases hql : q = t.nodes.length
    · rw [if_neg hqp, if_pos hql]
      rfl
    · rw [if_neg hqp, if_neg hql]
      exact hold

/-- The path of a new entry under a parent ends in the name of the entry. -/
theorem newPath_eq (t : ResourceTree) (p : Nat) (n : String) :
    ∃ pre, (if (t.node p).IsRoot then n else ResourceTree.pathJoin (t.RelPath p) n) =
      ResourceTree.pathJoin pre n := by
  by_cases h : (t.node p).IsRoot = true
  · exact ⟨"", by simp [h, ResourceTree.pathJoin]⟩
  · exact ⟨t.RelPath p, by simp [h]⟩

/-- Every call of `Update` in the resolution of an unhindered queue keeps `FreeInv`. -/
theorem FreeInv_step (x : Env) (s₀ s : State) (hfree : Unhindered x s₀)
    (kept rest : List Entry) (e : Entry)
    (h : FreeInv s₀ s.m_res (kept ++ e :: rest)) :
    s.m_res.FindByHref e.selfHref = none ∧
    ((Update x s e).1 = true → FreeInv s₀ (Update x s e).2.m_res (kept ++ rest)) := by
  obtain ⟨hbase, hwf, hidx, j3, j4, j5⟩ := h
  obtain ⟨-, -, e1, e2, -, e3⟩ := hfree
  obtain ⟨hself, hnext⟩ := ResolveInv_step x s₀ s kept rest e hbase
  obtain ⟨b1, b2, b3, -, -⟩ := hbase
  have hmem : e ∈ kept ++ e :: rest := (mem_middle kept rest e e).2 (Or.inl rfl)
  have he0 : e ∈ s₀.m_unresolved := b3 e hmem
  refine ⟨hself, ?_⟩
  intro htrue
  obtain ⟨p, hp⟩ := parent_known_of_true x s e hself htrue
  have hplt : p < s.m_res.nodes.length :=
    (IndexInRange_iff _).1 hidx p (FindByHref_some _ _ _ hp).1
  have hign : IsIgnore x (if (s.m_res.node p).IsRoot then e.name
      else ResourceTree.pathJoin (s.m_res.RelPath p) e.name) = false := by
    obtain ⟨pre, hpre⟩ := newPath_eq s.m_res p e.name
    rw [hpre]
    exact e1 e he0 pre
  have hupd := Update_attach x s e p hself hp hign (j3 e hmem p hp) (e2 e he0)
  have hres : (Update x s e).2.m_res = s.m_res.attach p e s.m_last_sync := by rw [hupd]
  have hinv := hnext htrue
  rw [hres] at hinv ⊢
  refine ⟨hinv, WellFormed_attach _ _ _ _ hwf hplt, IndexInRange_attach _ _ _ _ hidx, ?_, ?_, ?_⟩
  · intro e' he' q hq
    have hmem' : e' ∈ kept ++ e :: rest := (mem_middle kept rest e e').2 (Or.inr he')
    rw [FindByHref_attach _ _ _ _ hidx] at hq
    cases hold : s.m_res.FindByHref e'.ParentHref with
    | some q' =>
      rw [hold] at hq
      have hqq : q' = q := by simpa using hq
      subst hqq
      apply FindChild_attach _ _ _ _ hwf hplt q' e'.name (j3 e' hmem' q' hold)
      intro hqp
      subst hqp
      have h1 := (FindByHref_some _ _ _ hold).2
      have h2 := (FindByHref_some _ _ _ hp).2
      exact e3 e he0 e' (b3 e' hmem')
        (fun heq => selfHref_ne_of_nodup kept rest e e' b1 he' heq.symm) (h2.symm.trans h1)
    | none =>
      rw [hold] at hq
      have hq' : q = s.m_res.nodes.length := by
        by_cases hh : e.selfHref = e'.ParentHref
        · simp [hh] at hq
          exact hq.symm
        · simp [hh] at hq
      subst hq'
      unfold ResourceTree.FindChild
      rw [(shape_attach _ p e s.m_last_sync hplt _).2.2]
      have hne : ¬ (s.m_res.nodes.length = p) := by omega
      rw [if_neg hne, if_pos rfl]
      rfl
  · intro h hk
    rw [FindByHref_attach _ _ _ _ hidx]
    have := j4 h hk
    cases hf : s.m_res.FindByHref h with
    | some i => rfl
    | none =>
      rw [hf] at this
      cases this
  · intro e' he' hnot
    rw [FindByHref_attach _ _ _ _ hidx]
    by_cases hee : e' = e
    · rw [hee, hself]
      simp
    · have := j5 e' he' (fun hmem' => by
        rcases (mem_middle kept rest e e').1 hmem' with h1 | h1
        · exact hee h1
        · exact hnot h1)
      cases hf : s.m_res.FindByHref e'.selfHref with
      | some i => rfl
      | none =>
        rw [hf] at this
        cases this

/-! ### C2: fixed-point termination -/

/-- Where no identifier is lost and the entries left find no parent, every identifier
that reaches the tree of `s` along its queue is in the index at the end. -/
theorem SpecReaches_final (s s' : State)
    (hleft : ∀ e ∈ s'.m_unresolved, s'.m_res.FindByHref e.ParentHref = none)
    (hkeep : NothingLost s s') (h : String)
    (hr : SpecReaches s.m_res s.m_unresolved h) :
    (s'.m_res.FindByHref h).isSome = true := by
  induction hr with
  | known href hk => exact hkeep.1 href hk
  | step e he _ ih =>
    apply hkeep.2 e he
    intro hin
    rw [hleft e hin] at ih
    cases ih

/-- The invariant `ResolveInv` holds at the start of the resolution. -/
theorem ResolveInv_start (s : State) (hids : (s.m_unresolved.map Entry.selfHref).Nodup)
    (hnew : ∀ e ∈ s.m_unresolved, s.m_res.FindByHref e.selfHref = none) :
    ResolveInv s s.m_res s.m_unresolved :=
  ⟨hids, hnew, fun _ he => he, fun h hk => SpecReaches.known h hk,
    fun _ he hne => absurd he hne⟩

/-- The invariant `FreeInv` holds at the start of the resolution of an unhindered
queue. -/
theorem FreeInv_start (x : Env) (s : State)
    (hids : (s.m_unresolved.map Entry.selfHref).Nodup)
    (hnew : ∀ e ∈ s.m_unresolved, s.m_res.FindByHref e.selfHref = none)
    (hfree : Unhindered x s) : FreeInv s s.m_res s.m_unresolved :=
  ⟨ResolveInv_start s hids hnew, hfree.1, hfree.2.1, hfree.2.2.2.2.1, fun _ hk => hk,
    fun _ he hne => absurd he hne⟩

/-- The queue of `Example.sChain` is unhindered. -/
theorem Unhindered_sChain : Unhindered Example.env Example.sChain := by
  refine ⟨by decide, by decide, fun _ _ _ => rfl, by decide, ?_, by decide⟩
  intro e he p hp
  have hcases : e = Example.underA ∨ e = Example.folderA ∨ e = Example.dangling := by
    simpa [Example.sChain] using he
  rcases hcases with h | h | h
  · subst h
    have hn : Example.sChain.m_res.FindByHref Example.underA.ParentHref = none := by decide
    rw [hn] at hp
    cases hp
  · subst h
    have hn : Example.sChain.m_res.FindByHref Example.folderA.ParentHref = some 1 := by
      decide
    rw [hn] at hp
    cases hp
    decide
  · subst h
    have hn : Example.sChain.m_res.FindByHref Example.dangling.ParentHref = none := by
      decide
    rw [hn] at hp
    cases hp

/-- C2 as stated fails. In `sQueue` none of the three queued entries can never resolve
(the parent chain of each reaches the tree), yet resolution ends with the file queued:
the second folder entry named `x` takes over the Resource of the first, and the
identifier `a` the file waits for leaves the index. The same happens when the folder
the file waits for is ignored (`sSkip`), is a file without an on-disk name (`sNoName`),
or is a Resource of the tree that a queued entry of the same name takes over
(`sTaken`). In all four states the queued identifiers are pairwise different and none is
in the index. Where a queued identifier is in the index (`sStale`) or is queued twice
(`sTwice`), `Update` ends without a `return` and the queue left depends on the value
read there: read as `false`, the entry is left in the queue with its identifier in the
index. -/
theorem C2_resolvable_entry_left :
    ((Example.sQueue.m_unresolved.map Entry.selfHref).Nodup ∧
      (∀ e ∈ Example.sQueue.m_unresolved,
        Example.sQueue.m_res.FindByHref e.selfHref = none) ∧
      (∀ e ∈ Example.sQueue.m_unresolved, ¬ SpecNeverResolves Example.sQueue e) ∧
      (ResolveEntry Example.env Example.sQueue).map (fun r => r.2.m_unresolved) =
        some [Example.underA]) ∧
    ((Example.sSkip.m_unresolved.map Entry.selfHref).Nodup ∧
      (∀ e ∈ Example.sSkip.m_unresolved,
        Example.sSkip.m_res.FindByHref e.selfHref = none) ∧
      ¬ SpecNeverResolves Example.sSkip Example.underSkip ∧
      (ResolveEntry Example.envSkip Example.sSkip).map (fun r => r.2.m_unresolved) =
        some [Example.underSkip]) ∧
    ((Example.sNoName.m_unresolved.map Entry.selfHref).Nodup ∧
      (∀ e ∈ Example.sNoName.m_unresolved,
        Example.sNoName.m_res.FindByHref e.selfHref = none) ∧
      ¬ SpecNeverResolves Example.sNoName Example.underNoName ∧
      (ResolveEntry Example.env Example.sNoName).map (fun r => r.2.m_unresolved) =
        some [Example.underNoName]) ∧
    ((Example.sTaken.m_unresolved.map Entry.selfHref).Nodup ∧
      (∀ e ∈ Example.sTaken.m_unresolved,
        Example.sTaken.m_res.FindByHref e.selfHref = none) ∧
      ¬ SpecNeverResolves Example.sTaken Example.underA ∧
      (ResolveEntry Example.env Example.sTaken).map (fun r => r.2.m_unresolved) =
        some [Example.underA]) ∧
    ((ResolveEntry Example.env Example.sStale).map (fun r => r.2.m_unresolved) =
        some [] ∧
      (ResolveEntry Example.envFalse Example.sStale).map
        (fun r => (r.2.m_unresolved, r.2.m_res.FindByHref "root")) =
          some (Example.sStale.m_unresolved, some 0)) ∧
    ((ResolveEntry Example.env Example.sTwice).map (fun r => r.2.m_unresolved) =
        some [] ∧
      (ResolveEntry Example.envFalse Example.sTwice).map
        (fun r => (r.2.m_unresolved, r.2.m_res.FindByHref "p")) =
          some ([Example.parentP], some 1)) := by
  have hq : SpecReaches Example.sQueue.m_res Example.sQueue.m_unresolved "q" :=
    SpecReaches.known "q" (by decide)
  have ha : SpecReaches Example.sQueue.m_res Example.sQueue.m_unresolved "a" :=
    SpecReaches.step Example.folderA (by decide) hq
  refine ⟨⟨by decide, by decide, ?_, by decide⟩, ⟨by decide, by decide, ?_, by decide⟩,
    ⟨by decide, by decide, ?_, by decide⟩, ⟨by decide, by decide, ?_, by decide⟩,
    ⟨by decide, by decide⟩, ⟨by decide, by decide⟩⟩
  · intro e he hnever
    have hcases : e = Example.underA ∨ e = Example.folderA ∨ e = Example.folderB := by
      simpa [Example.sQueue] using he
    rcases hcases with h | h | h
    · subst h
      exact hnever.2 ha
    · subst h
      exact hnever.2 hq
    · subst h
      exact hnever.2 hq
  · intro hnever
    exact hnever.2 (SpecReaches.step Example.skipEntry (by decide)
      (SpecReaches.known "root" (by decide)))
  · intro hnever
    exact hnever.2 (SpecReaches.step Example.noName (by decide)
      (SpecReaches.known "root" (by decide)))
  · intro hnever
    exact hnever.2 (SpecReaches.known "a" (by decide))

/-- C2, amended. Fixed-point termination: for a queue of N entries with pairwise
different identifiers of which none is in the index, `ResolveEntry` ends after at most N
calls of `TryResolveEntry`; the queue it leaves is a sublist of the original one, in
the original order; every entry that can never resolve is left in it; every entry left
has neither its own nor its parent identifier in the index of the final tree; where no
identifier was lost on the way, the entries left are exactly those that can never
resolve; no identifier is lost when the queue is unhindered; and the result is the same
whatever value is read where `Update` ends without a `return`. -/
theorem C2_fixed_point_termination (x : Env) (s : State)
    (hids : (s.m_unresolved.map Entry.selfHref).Nodup)
    (hnew : ∀ e ∈ s.m_unresolved, s.m_res.FindByHref e.selfHref = none) :
    ∃ n s', ResolveEntry x s = some (n, s') ∧ n ≤ s.m_unresolved.length ∧
      s'.m_unresolved.Sublist s.m_unresolved ∧
      (∀ e ∈ s.m_unresolved, SpecNeverResolves s e → e ∈ s'.m_unresolved) ∧
      (∀ e ∈ s'.m_unresolved, s'.m_res.FindByHref e.selfHref = none ∧
        s'.m_res.FindByHref e.ParentHref = none) ∧
      (NothingLost s s' → ∀ e ∈ s.m_unresolved,
        (e ∈ s'.m_unresolved ↔ SpecNeverResolves s e)) ∧
      (Unhindered x s → NothingLost s s') ∧
      (∀ x' : Env, x'.regex_match = x.regex_match → ResolveEntry x' s = some (n, s')) := by
  obtain ⟨n, s', hrun, hn, hsub, hinv, hleft⟩ :=
    resolveLoop_inv x (ResolveInv s) (ResolveInv_step x s) s.m_unresolved.length s
      (Nat.le_refl _) (ResolveInv_start s hids hnew)
  have hstay : ∀ e ∈ s.m_unresolved, SpecNeverResolves s e → e ∈ s'.m_unresolved := by
    intro e he hnever
    by_contra hout
    exact hnever.2 (hinv.2.2.2.2 e he hout)
  refine ⟨n, s', hrun, hn, hsub, hstay, hleft, ?_, ?_, ?_⟩
  · intro hkeep e he
    refine ⟨fun hin => ⟨hnew e he, fun hr => ?_⟩, hstay e he⟩
    have hk := SpecReaches_final s s' (fun e' he' => (hleft e' he').2) hkeep _ hr
    rw [(hleft e hin).2] at hk
    cases hk
  · intro hfree
    obtain ⟨n₂, s₂, hrun₂, -, -, hinv₂, -⟩ :=
      resolveLoop_inv x (FreeInv s) (fun st => FreeInv_step x s st hfree)
        s.m_unresolved.length s (Nat.le_refl _) (FreeInv_start x s hids hnew hfree)
    have hsame : s₂ = s' := by
      have h := hrun₂.symm.trans hrun
      simp only [Option.some.injEq, Prod.mk.injEq] at h
      exact h.2
    subst hsame
    exact ⟨hinv₂.2.2.2.2.1, hinv₂.2.2.2.2.2⟩
  · intro x' hx
    exact (resolveLoop_env x x' hx (ResolveInv s) (ResolveInv_step x s) s.m_unresolved.length
      s (ResolveInv_start s hids hnew)).trans hrun

/-- C2 at a queue of a file, the folder it waits for and an entry whose parent never
arrives, all unhindered: resolution ends within three scans, no identifier is lost, the
entries left are exactly those that can never resolve, and the result is the same with
`false` read where `Update` has no `return`. -/
theorem C2_fixed_point_termination_witness :
    ∃ n s', ResolveEntry Example.env Example.sChain = some (n, s') ∧
      n ≤ Example.sChain.m_unresolved.length ∧
      s'.m_unresolved.Sublist Example.sChain.m_unresolved ∧
      (∀ e ∈ s'.m_unresolved, s'.m_res.FindByHref e.selfHref = none ∧
        s'.m_res.FindByHref e.ParentHref = none) ∧
      (∀ e ∈ Example.sChain.m_unresolved,
        (e ∈ s'.m_unresolved ↔ SpecNeverResolves Example.sChain e)) ∧
      NothingLost Example.sChain s' ∧
      ResolveEntry Example.envFalse Example.sChain = some (n, s') := by
  obtain ⟨n, s', h1, h2, h3, -, h5, h6, h7, h8⟩ :=
    C2_fixed_point_termination Example.env Example.sChain (by decide) (by decide)
  exact ⟨n, s', h1, h2, h3, h5, h6 (h7 Unhindered_sChain), h7 Unhindered_sChain,
    h8 Example.envFalse rfl⟩

/-! ### The merge of a pair of entries in either order -/

end State

/-! ## Properties of `CurlAgent` -/

namespace CurlAgent

/-! ### C12: HTTP error detection -/

/-- What `HeaderCallback` does to the error flag and what it returns: the flag is set
when the first five characters are `HTTP/` and the character at position 9 is `4` or
above, and is otherwise left as it was; the call returns `size*nmemb`. -/
theorem HeaderCallback_error (beyond : Char) (ptr : List Char) (size nmemb : Nat)
    (a : CurlAgent) :
    (HeaderCallback beyond ptr size nmemb a).1 = sizeBytes size nmemb ∧
    (HeaderCallback beyond ptr size nmemb a).2.error =
      (a.error ||
        decide (StdString.substr (ptr.take (sizeBytes size nmemb)) 0 5 = "HTTP/".data ∧
          '4' ≤ StdString.at9 beyond (ptr.take (sizeBytes size nmemb)))) := by
  refine ⟨rfl, ?_⟩
  obtain ⟨location, error, error_headers, error_data, dest, m_log, done, total, loaded⟩ := a
  unfold HeaderCallback
  dsimp only
  by_cases h : StdString.substr (ptr.take (sizeBytes size nmemb)) 0 5 = "HTTP/".data ∧
      '4' ≤ StdString.at9 beyond (ptr.take (sizeBytes size nmemb))
  · simp only [h, and_self, if_true, decide_True, Bool.or_true]
    cases m_log <;> split_ifs <;> rfl
  · simp only [h, if_false, decide_False, Bool.or_false]
    cases error <;> cases m_log <;> split_ifs <;> rfl

/-- The digits as characters: each is a digit, has its value, compares with `4` as its
value does, and is no space. -/
theorem digit_facts (d : Nat) (hd : d < 10) :
    (digit d).isDigit = true ∧ (digit d).toNat - 48 = d ∧
      (decide ('4' ≤ digit d) = decide (4 ≤ d)) ∧ (digit d != ' ') = true := by
  interval_cases d <;> decide

/-- Behind `HTTP/1.x ` the test of `HeaderCallback` is the claim's: for a status line of
HTTP/1.x with a status code of three digits, the error flag is set exactly when the code
is 400 or above, and is otherwise left as it was. -/
theorem HeaderCallback_http1 (beyond : Char) (ptr : List Char) (size nmemb : Nat)
    (a : CurlAgent) (v1 v2 : Char) (d1 d2 d3 : Nat) (rest : List Char)
    (hline : ptr.take (sizeBytes size nmemb) =
      'H' :: 'T' :: 'T' :: 'P' :: '/' :: v1 :: '.' :: v2 :: ' ' ::
        digit d1 :: digit d2 :: digit d3 :: rest)
    (hv1 : v1 ≠ ' ') (hv2 : v2 ≠ ' ')
    (hd1 : d1 < 10) (hd2 : d2 < 10) (hd3 : d3 < 10)
    (hrest : rest.takeWhile Char.isDigit = []) :
    (HeaderCallback beyond ptr size nmemb a).2.error =
      (a.error || specIsErrorStatus (ptr.take (sizeBytes size nmemb))) := by
  obtain ⟨-, herr⟩ := HeaderCallback_error beyond ptr size nmemb a
  obtain ⟨a1, a2, a3, a4⟩ := digit_facts d1 hd1
  obtain ⟨b1, b2, -, b4⟩ := digit_facts d2 hd2
  obtain ⟨c1, c2, -, c4⟩ := digit_facts d3 hd3
  rw [herr, hline]
  have hat : StdString.at9 beyond ('H' :: 'T' :: 'T' :: 'P' :: '/' :: v1 :: '.' :: v2 :: ' ' ::
        digit d1 :: digit d2 :: digit d3 :: rest) = digit d1 := rfl
  have hsub : StdString.substr ('H' :: 'T' :: 'T' :: 'P' :: '/' :: v1 :: '.' :: v2 :: ' ' ::
        digit d1 :: digit d2 :: digit d3 :: rest) 0 5 = "HTTP/".data := rfl
  have hspec : specIsErrorStatus ('H' :: 'T' :: 'T' :: 'P' :: '/' :: v1 :: '.' :: v2 :: ' ' ::
        digit d1 :: digit d2 :: digit d3 :: rest) = decide (4 ≤ d1) := by
    have hp : "HTTP/".data.isPrefixOf ('H' :: 'T' :: 'T' :: 'P' :: '/' :: v1 :: '.' :: v2 ::
        ' ' :: digit d1 :: digit d2 :: digit d3 :: rest) = true := rfl
    have hv1' : (v1 != ' ') = true := by simpa using hv1
    have hv2' : (v2 != ' ') = true := by simpa using hv2
    unfold specIsErrorStatus specStatusCode
    rw [if_pos hp]
    simp only [List.dropWhile, hv1', hv2', List.drop, List.takeWhile, a1, b1, c1, hrest,
      List.foldl, a2, b2, c2, show ('H' != ' ') = true from rfl,
      show ('T' != ' ') = true from rfl, show ('P' != ' ') = true from rfl,
      show ('/' != ' ') = true from rfl, show ('.' != ' ') = true from rfl,
      show (' ' != ' ') = false from rfl]
    simp only [reduceCtorEq, if_false, Nat.mul_zero, Nat.zero_add]
    rw [decide_eq_decide]
    omega
  rw [hat, hsub, hspec, ← a3]
  simp

/-- C12. HTTP error detection, at the status lines of HTTP/2: `HTTP/2 500` is a status
line with code 500 and leaves the error flag unset, `HTTP/2 204` is a status line with
code 204 and sets it; the test reads the character at position 9, the first digit of
the code only behind `HTTP/1.x `.  For `HTTP/1.1 404` the flag is set, for
`HTTP/1.1 200` and for a line that is no status line it is left as it was, and the call
returns `size*nmemb`. -/
theorem C12_http2_status_misread :
    specStatusCode "HTTP/2 500 \r\n".data = some 500 ∧
    (HeaderCallback 'z' "HTTP/2 500 \r\n".data 1 13 Example.agent).2.error = false ∧
    specStatusCode "HTTP/2 204 \r\n".data = some 204 ∧
    (HeaderCallback 'z' "HTTP/2 204 \r\n".data 1 13 Example.agent).2.error = true ∧
    (HeaderCallback 'z' "HTTP/1.1 404 Not Found\r\n".data 1 24 Example.agent).2.error = true ∧
    (HeaderCallback 'z' "HTTP/1.1 200 OK\r\n".data 1 17 Example.agent).2.error = false ∧
    (HeaderCallback 'z' "Content-Length: 512\r\n".data 1 21 Example.agent).2.error = false ∧
    (HeaderCallback 'z' "HTTP/2 500 \r\n".data 1 13 Example.agent).1 = 13 := by
  refine ⟨by decide, by decide, by decide, by decide, by decide, by decide, by decide,
    by decide⟩

/-! ### C13: error bodies and the destination stream -/

/-- What `Receive` does to the error flag, the error buffer and the destination: with
the error flag set and fewer than 65536 bytes in the error buffer the bytes are
appended to the error buffer, otherwise they are written to the destination; the flag
stays as it was. -/
theorem Receive_streams (full : Int → Int → Bool) (ptr : List Char) (size nmemb : Nat)
    (a : CurlAgent) :
    (Receive full ptr size nmemb a).2.error = a.error ∧
    (Receive full ptr size nmemb a).2.error_data =
      (if a.error = true ∧ a.error_data.length < 65536 then
        a.error_data ++ ptr.take (sizeBytes size nmemb)
      else a.error_data) ∧
    (Receive full ptr size nmemb a).2.dest =
      (if a.error = true ∧ a.error_data.length < 65536 then a.dest
      else a.dest ++ ptr.take (sizeBytes size nmemb)) := by
  obtain ⟨location, error, error_headers, error_data, dest, m_log, done, total, loaded⟩ := a
  unfold Receive
  dsimp only
  cases m_log <;> by_cases ht : 0 < total <;>
    by_cases hc : error = true ∧ error_data.length < 65536 <;> simp [ht, hc]

/-- While the error flag is set and the error buffer holds fewer than 65536 bytes,
`Receive` writes nothing to the destination and appends the bytes to the buffer that
`LastError` returns. -/
theorem Receive_error_below_cap (full : Int → Int → Bool) (ptr : List Char)
    (size nmemb : Nat) (a : CurlAgent) (herr : a.error = true)
    (hcap : a.error_data.length < 65536) :
    (Receive full ptr size nmemb a).2.dest = a.dest ∧
    LastError (Receive full ptr size nmemb a).2 =
      LastError a ++ ptr.take (sizeBytes size nmemb) := by
  obtain ⟨-, h2, h3⟩ := Receive_streams full ptr size nmemb a
  unfold LastError
  rw [h2, h3]
  simp [herr, hcap]

/-- With the error flag set and 65536 bytes or more in the error buffer, `Receive`
writes the bytes to the destination and leaves the error buffer as it was. -/
theorem Receive_error_at_cap (full : Int → Int → Bool) (ptr : List Char)
    (size nmemb : Nat) (a : CurlAgent) (hcap : 65536 ≤ a.error_data.length) :
    (Receive full ptr size nmemb a).2.dest = a.dest ++ ptr.take (sizeBytes size nmemb) ∧
    LastError (Receive full ptr size nmemb a).2 = LastError a := by
  obtain ⟨-, h2, h3⟩ := Receive_streams full ptr size nmemb a
  have hn : ¬ (a.error = true ∧ a.error_data.length < 65536) := fun h => by omega
  unfold LastError
  rw [h2, h3]
  simp [hn]

/-- C13. Error bodies and the destination, at an error response whose body has already
filled the error buffer with 65536 bytes: with the error flag set, the next bytes
`late` are written to the destination stream and do not reach the buffer that
`LastError` returns. -/
theorem C13_error_body_reaches_destination :
    Example.agentFull.error = true ∧
    Example.agentFull.dest = [] ∧
    (Receive Example.full "late".data 1 4 Example.agentFull).2.error = true ∧
    (Receive Example.full "late".data 1 4 Example.agentFull).2.dest = "late".data ∧
    LastError (Receive Example.full "late".data 1 4 Example.agentFull).2 =
      LastError Example.agentFull := by
  have hlen : 65536 ≤ Example.agentFull.error_data.length :=
    Nat.le_of_eq (List.length_replicate 65536 'x').symm
  obtain ⟨h1, h2⟩ := Receive_error_at_cap Example.full "late".data 1 4 Example.agentFull hlen
  refine ⟨rfl, rfl, ?_, ?_, h2⟩
  · exact (Receive_streams Example.full "late".data 1 4 Example.agentFull).1
  · rw [h1]
    rfl

end CurlAgent

end Grive
